import Mathlib

/-!
# bash-flutter-cli: case conversion and file generation

A shallow embedding of `main.go`.  A Go `string` is a sequence of bytes; it is
modelled as a list of natural numbers (each byte a number below 256).  The
three regular expressions of `main.go` are modelled by the scans they denote,
the functions of Go's `strings`, `unicode/utf8` and `path/filepath` packages by
their documented behaviour.
-/

namespace BashFlutter

/-! ## Strings and bytes -/

/-- A Go string: its bytes, in order. -/
abbrev GoString := List Nat

/-- The bytes of an ASCII literal. -/
def ascii (s : String) : GoString := s.toList.map Char.toNat

/-- The class `[a-z]`. -/
def isLower (b : Nat) : Bool := decide (97 ≤ b) && decide (b ≤ 122)

/-- The class `[A-Z]`. -/
def isUpper (b : Nat) : Bool := decide (65 ≤ b) && decide (b ≤ 90)

/-- The class `[0-9]`. -/
def isDigit (b : Nat) : Bool := decide (48 ≤ b) && decide (b ≤ 57)

/-- The class `[a-z0-9]`, first group of the first expression of `toSnakeCase`. -/
def isLowerDigit (b : Nat) : Bool := isLower b || isDigit b

/-- The class `[a-zA-Z0-9]`, negated in the second expression of `toSnakeCase`. -/
def isAlnum (b : Nat) : Bool := isLower b || isUpper b || isDigit b

/-- The class `[_\-\s]` of `toPascalCase`: underscore, hyphen, and the
whitespace of Go's regexp syntax, `\s` being `[\t\n\f\r ]`. -/
def isDelim (b : Nat) : Bool :=
  b == 95 || b == 45 || b == 9 || b == 10 || b == 12 || b == 13 || b == 32

/-- Lower-case form of an ASCII byte: `c += 'a' - 'A'` on `'A'..'Z'`. -/
def asciiLower (b : Nat) : Nat := if isUpper b then b + 32 else b

/-- Upper-case form of an ASCII byte: `c -= 'a' - 'A'` on `'a'..'z'`. -/
def asciiUpper (b : Nat) : Nat := if isLower b then b - 32 else b

/-- Put a byte in front of the first piece of a split string. -/
def consHead (b : Nat) : List GoString → List GoString
  | [] => [[b]]
  | w :: ws => (b :: w) :: ws

/-! ## Go's `unicode/utf8`, `unicode` and `strings` -/

/-- The code point `utf8.RuneError`, U+FFFD. -/
def runeError : Nat := 65533

/-- Continuation byte test `locb <= b <= hicb` with explicit bounds. -/
def inRange (lo hi b : Nat) : Bool := decide (lo ≤ b) && decide (b ≤ hi)

/-- Go's `utf8.DecodeRuneInString` on a non-empty string: the rune and its
width in bytes.  An invalid or incomplete encoding gives `(RuneError, 1)`.
The masks and shifts of the Go code are written with `%` and `*`. -/
def decodeRune : GoString → Nat × Nat
  | [] => (runeError, 0)
  | b0 :: rest =>
    if b0 < 128 then (b0, 1)
    else if inRange 194 223 b0 then
      match rest with
      | b1 :: _ =>
        if inRange 128 191 b1 then ((b0 % 32) * 64 + b1 % 64, 2) else (runeError, 1)
      | _ => (runeError, 1)
    else if inRange 224 239 b0 then
      match rest with
      | b1 :: b2 :: _ =>
        let lo := if b0 = 224 then 160 else 128
        let hi := if b0 = 237 then 159 else 191
        if inRange lo hi b1 && inRange 128 191 b2 then
          ((b0 % 16) * 4096 + (b1 % 64) * 64 + b2 % 64, 3)
        else (runeError, 1)
      | _ => (runeError, 1)
    else if inRange 240 244 b0 then
      match rest with
      | b1 :: b2 :: b3 :: _ =>
        let lo := if b0 = 240 then 144 else 128
        let hi := if b0 = 244 then 143 else 191
        if inRange lo hi b1 && inRange 128 191 b2 && inRange 128 191 b3 then
          ((b0 % 8) * 262144 + (b1 % 64) * 4096 + (b2 % 64) * 64 + b3 % 64, 4)
        else (runeError, 1)
      | _ => (runeError, 1)
    else (runeError, 1)

/-- Go's `utf8.AppendRune`: the UTF-8 encoding of a rune; surrogates and
values above `MaxRune` are encoded as `RuneError`. -/
def encodeRune (r : Nat) : GoString :=
  if r < 128 then [r]
  else if r < 2048 then [192 + r / 64, 128 + r % 64]
  else if 1114111 < r ∨ (55296 ≤ r ∧ r ≤ 57343) then [239, 191, 189]
  else if r < 65536 then [224 + r / 4096, 128 + (r / 64) % 64, 128 + r % 64]
  else [240 + r / 262144, 128 + (r / 4096) % 64, 128 + (r / 64) % 64, 128 + r % 64]

/-- The case tables of Go's `unicode` package (`unicode.CaseRanges`) are not
part of this repository: the mapping of the runes above `MaxASCII` is a
parameter.  U+FFFD, which stands for every invalid byte, has no case. -/
structure CaseTables where
  /-- The table lookup `To(UpperCase, r)`. -/
  upper : Nat → Nat
  /-- The table lookup `To(LowerCase, r)`. -/
  lower : Nat → Nat
  upper_runeError : upper 65533 = 65533
  lower_runeError : lower 65533 = 65533

/-- Tables without any entry: every rune above `MaxASCII` is its own upper
and lower case. -/
def noCaseTables : CaseTables := ⟨id, id, rfl, rfl⟩

/-- Go's `unicode.ToUpper`. -/
def unicodeToUpper (t : CaseTables) (r : Nat) : Nat :=
  if r ≤ 127 then asciiUpper r else t.upper r

/-- Go's `unicode.ToLower`. -/
def unicodeToLower (t : CaseTables) (r : Nat) : Nat :=
  if r ≤ 127 then asciiLower r else t.lower r

/-- Loop of `strings.Map`: decode a rune, write the encoding of its image. -/
def stringsMapAux (mapping : Nat → Nat) : Nat → GoString → GoString
  | 0, _ => []
  | _, [] => []
  | fuel + 1, b :: rest =>
    let d := decodeRune (b :: rest)
    encodeRune (mapping d.1) ++ stringsMapAux mapping fuel ((b :: rest).drop d.2)

/-- Go's `strings.Map` for a mapping without negative values: every rune of
`s` is replaced by its image; an invalid byte counts as `RuneError`. -/
def stringsMap (mapping : Nat → Nat) (s : GoString) : GoString :=
  stringsMapAux mapping s.length s

/-- Go's `strings.ToLower`: byte-wise on an ASCII string, else
`Map(unicode.ToLower, s)`. -/
def stringsToLower (t : CaseTables) (s : GoString) : GoString :=
  if s.all (fun b => decide (b < 128)) then s.map asciiLower
  else stringsMap (unicodeToLower t) s

/-- Go's `strings.ToUpper`: byte-wise on an ASCII string, else
`Map(unicode.ToUpper, s)`. -/
def stringsToUpper (t : CaseTables) (s : GoString) : GoString :=
  if s.all (fun b => decide (b < 128)) then s.map asciiUpper
  else stringsMap (unicodeToUpper t) s

/-- Go's `strings.Trim(s, cutset)` for a cutset of ASCII bytes: the trailing,
then the leading bytes of the cutset are removed. -/
def stringsTrim (s cutset : GoString) : GoString :=
  (s.rdropWhile (fun b => cutset.contains b)).dropWhile (fun b => cutset.contains b)

/-- Go's `strings.Join(words, "")`. -/
def stringsJoin (words : List GoString) : GoString := words.flatten

/-! ## The regular expressions of `main.go` -/

/-- `regexp.MustCompile("([a-z0-9])([A-Z])").ReplaceAllString(s, "${1}_${2}")`:
scanning from the left, each pair of a byte of `[a-z0-9]` and a following byte
of `[A-Z]` is a match and gets an underscore in between; the scan goes on
after the match. -/
def replaceCamelBoundary : GoString → GoString
  | a :: b :: rest =>
    if isLowerDigit a && isUpper b then a :: 95 :: b :: replaceCamelBoundary rest
    else a :: replaceCamelBoundary (b :: rest)
  | s => s

/-- Scan of `replaceNonAlnum`; `inRun` says that the byte before was part of a
match. -/
def replaceNonAlnumAux : Bool → GoString → GoString
  | _, [] => []
  | inRun, b :: rest =>
    if isAlnum b then b :: replaceNonAlnumAux false rest
    else if inRun then replaceNonAlnumAux true rest
    else 95 :: replaceNonAlnumAux true rest

/-- `regexp.MustCompile("[^a-zA-Z0-9]+").ReplaceAllString(s, "_")`: every
maximal run of bytes outside `[a-zA-Z0-9]` becomes one underscore.  (Each byte
of a character outside ASCII, and each invalid byte, is outside the class.) -/
def replaceNonAlnum (s : GoString) : GoString := replaceNonAlnumAux false s

/-- Scan of `splitDelims`: `cur` is the piece read so far, reversed. -/
def splitDelimsAux : GoString → Bool → GoString → List GoString
  | cur, _, [] => [cur.reverse]
  | cur, inRun, b :: rest =>
    if isDelim b then
      if inRun then splitDelimsAux [] true rest
      else cur.reverse :: splitDelimsAux [] true rest
    else splitDelimsAux (b :: cur) false rest

/-- `regexp.MustCompile("[_\-\s]+").Split(s, -1)`: the pieces of `s` between
the maximal runs of delimiters, a leading and a trailing empty piece
included. -/
def splitDelims (s : GoString) : List GoString := splitDelimsAux [] false s

/-! ## The case converters of `main.go` -/

/-- `toSnakeCase` of `main.go`. -/
def toSnakeCase (t : CaseTables) (s : GoString) : GoString :=
  let snake := replaceCamelBoundary s
  let snake := replaceNonAlnum snake
  stringsToLower t (stringsTrim snake [95])

/-- Body of the loop of `toPascalCase`: a word of positive length becomes
`strings.ToUpper(word[:1]) + strings.ToLower(word[1:])`. -/
def capitalize (t : CaseTables) (word : GoString) : GoString :=
  if word.length > 0 then stringsToUpper t (word.take 1) ++ stringsToLower t (word.drop 1)
  else word

/-- `toPascalCase` of `main.go`. -/
def toPascalCase (t : CaseTables) (s : GoString) : GoString :=
  let words := splitDelims s
  stringsJoin (words.map (capitalize t))

/-- `toCamelCase` of `main.go`. -/
def toCamelCase (t : CaseTables) (s : GoString) : GoString :=
  let s := toPascalCase t s
  if s.length = 0 then s
  else stringsToLower t (s.take 1) ++ s.drop 1

/-! ## Go's `path/filepath` on a Unix system -/

/-- The elements of a path between its slashes. -/
def splitSlash : GoString → List GoString
  | [] => [[]]
  | c :: cs => if c = 47 then [] :: splitSlash cs else consHead c (splitSlash cs)

/-- One step of `filepath.Clean`: `stack` holds the elements written so far,
the last one first.  An empty or `.` element is skipped; `..` removes the
element before it, is dropped at the root, and is kept where nothing is left
to remove; any other element is appended. -/
def cleanStep (rooted : Bool) (stack : List GoString) (e : GoString) : List GoString :=
  if e = [] ∨ e = [46] then stack
  else if e = [46, 46] then
    match stack with
    | [] => if rooted then [] else [e]
    | top :: below => if top = [46, 46] then e :: stack else below
  else e :: stack

/-- The path written by `filepath.Clean` for a stack of elements. -/
def renderPath (rooted : Bool) (stack : List GoString) : GoString :=
  if rooted then 47 :: [47].intercalate stack.reverse
  else if stack = [] then [46]
  else [47].intercalate stack.reverse

/-- Go's `filepath.Clean`. -/
def filepathClean (path : GoString) : GoString :=
  if path = [] then [46]
  else
    let rooted := path.head? = some 47
    renderPath rooted ((splitSlash path).foldl (cleanStep rooted) [])

/-- Go's `filepath.Dir`: `Clean` of the path up to and including its last
slash. -/
def filepathDir (path : GoString) : GoString :=
  filepathClean (path.rdropWhile (fun c => c != 47))

/-- Go's `filepath.Base`: the last element of the path, trailing slashes
removed. -/
def filepathBase (path : GoString) : GoString :=
  if path = [] then [46]
  else
    let stripped := path.rdropWhile (fun c => c == 47)
    let last := stripped.rtakeWhile (fun c => c != 47)
    if last = [] then [47] else last

/-- Go's `filepath.Join`: the elements from the first non-empty one on, joined
by slashes and cleaned. -/
def filepathJoin (elem : List GoString) : GoString :=
  match elem.dropWhile (fun e => e.isEmpty) with
  | [] => []
  | es => filepathClean ([47].intercalate es)

/-! ## The file system and the template engine -/

/-- The lines `main.go` prints, one constructor for each print statement of
`generateBoilerplate` and `generateFile`. -/
inductive Message where
  /-- `Error: Expected at least two arguments, but received none.` -/
  | expectedArguments
  /-- `Run bf -h for help` -/
  | runHelp
  /-- `Error: Template not found: %s` -/
  | templateNotFound (templatePath : GoString)
  /-- `Ensure installation completed successfully.` -/
  | ensureInstallation
  /-- `Error reading template: %v` -/
  | errorReadingTemplate
  /-- `Error creating directory: %v` -/
  | errorCreatingDirectory
  /-- `Creating bloc directory` -/
  | creatingBlocDirectory
  /-- `Error creating bloc directory: %v` -/
  | errorCreatingBlocDirectory
  /-- `Error: File already exists: %s` -/
  | fileAlreadyExists (outputPath : GoString)
  /-- `Error parsing template: %v` -/
  | errorParsingTemplate
  /-- `Error executing template: %v` -/
  | errorExecutingTemplate
  /-- `Error writing file: %v` -/
  | errorWritingFile
  /-- `✓ Generated %s` -/
  | generated (outputPath : GoString)
  deriving DecidableEq

/-- The file system as the program sees it, and what the program has done to
it.  `files` are the regular files with their contents, `dirs` the
directories.  The operating system may refuse a call for reasons that are no
part of this state (permissions, a parent that is a regular file, a symbolic
link that leads back to itself, a full disk): the four `refuse` fields say
for which paths. -/
structure World where
  files : GoString → Option GoString
  dirs : GoString → Bool
  refuseStat : GoString → Bool
  refuseRead : GoString → Bool
  refuseMkdir : GoString → Bool
  refuseWrite : GoString → Bool
  /-- The lines printed so far. -/
  stdout : List Message
  /-- The successful calls of `os.WriteFile` so far: path and data. -/
  written : List (GoString × GoString)

/-- What `os.Stat` finds at a path. -/
inductive StatResult where
  /-- An error for which `os.IsNotExist` holds. -/
  | notExist
  /-- No error, `IsDir()` is false. -/
  | file
  /-- No error, `IsDir()` is true. -/
  | dir
  /-- An error for which `os.IsNotExist` does not hold; the `FileInfo`
  returned with it is `nil`. -/
  | failed
  deriving DecidableEq

/-- `os.Stat`: what is at the path, unless the system refuses to say. -/
def osStat (w : World) (path : GoString) : StatResult :=
  if w.refuseStat path then StatResult.failed
  else
    match w.files path with
    | some _ => StatResult.file
    | none => if w.dirs path then StatResult.dir else StatResult.notExist

/-- `os.ReadFile`: the content of a regular file, `none` for an error. -/
def osReadFile (w : World) (path : GoString) : Option GoString :=
  if w.refuseRead path then none else w.files path

/-- `os.MkdirAll`: `path` becomes a directory (nothing changes when it is
one); an error, `none`, when `path` is a regular file or the system refuses.
The parents made on the way are not recorded; a parent that is a regular file
is one of the reasons for the system to refuse. -/
def osMkdirAll (w : World) (path : GoString) : Option World :=
  if (w.files path).isSome || w.refuseMkdir path then none
  else some { w with dirs := fun q => decide (q = path) || w.dirs q }

/-- `os.WriteFile`: `path` becomes a regular file with the given data; an
error, `none`, when `path` is a directory or the system refuses. -/
def osWriteFile (w : World) (path data : GoString) : Option World :=
  if w.dirs path || w.refuseWrite path then none
  else some { w with
    files := fun q => if q = path then some data else w.files q
    written := w.written ++ [(path, data)] }

/-- `fmt.Println` and `fmt.Printf`. -/
def World.print (w : World) (m : Message) : World := { w with stdout := w.stdout ++ [m] }

/-- What is not part of this repository: the case tables of `unicode`, and
Go's `text/template` with `funcMap` installed.  `parse` says whether
`template.New("dart").Funcs(funcMap).Parse` accepts a template text, `execute`
gives the output of `Execute` for the data `TemplateData{Name: name}`, `none`
for an error. -/
structure Env where
  tables : CaseTables
  parse : GoString → Bool
  execute : GoString → GoString → Option GoString

/-- The constants of the package `constants` (imported as `fileType`), which
is not among the source files: they enter as parameters. -/
structure FileTypes where
  Page : GoString
  BloCPage : GoString
  BLoC : GoString
  Event : GoString
  State : GoString

/-- How a call ends. -/
inductive Outcome where
  /-- The function returned. -/
  | returned (w : World)
  /-- `os.Exit(code)` was called. -/
  | exited (code : Nat) (w : World)
  /-- A run-time panic. -/
  | panicked (w : World)

/-- Run `next` when the call before returned. -/
def Outcome.andThen (o : Outcome) (next : World → Outcome) : Outcome :=
  match o with
  | Outcome.returned w => next w
  | other => other

/-- The world at the end of a call. -/
def Outcome.world : Outcome → World
  | Outcome.returned w => w
  | Outcome.exited _ w => w
  | Outcome.panicked w => w

/-- The exit status of the process when the call ends it: the argument of
`os.Exit`, and 2 for a run-time panic. -/
def Outcome.exitCode : Outcome → Option Nat
  | Outcome.exited c _ => some c
  | Outcome.panicked _ => some 2
  | Outcome.returned _ => none

/-! ## `generateFile` and `generateBoilerplate` -/

/-- The `switch fullType` of `generateFile`: the name of the generated file. -/
def generatedFilename (env : Env) (ft : FileTypes) (fullType baseName : GoString) : GoString :=
  if fullType = ft.Page then toSnakeCase env.tables baseName ++ ascii "_page.dart"
  else if fullType = ft.BloCPage then toSnakeCase env.tables baseName ++ ascii "_page.dart"
  else if fullType = ft.BLoC then ascii "bloc/" ++ toSnakeCase env.tables baseName ++ ascii "_bloc.dart"
  else if fullType = ft.Event then ascii "bloc/" ++ toSnakeCase env.tables baseName ++ ascii "_event.dart"
  else if fullType = ft.State then ascii "bloc/" ++ toSnakeCase env.tables baseName ++ ascii "_state.dart"
  else toSnakeCase env.tables baseName ++ ascii ".dart"

/-- Last part of `generateFile`: the check of the output file (`err == nil`
for `os.Stat`), parsing and executing the template, writing the file. -/
def writeOutput (env : Env) (templateContent baseName outputPath : GoString) (w : World) :
    Outcome :=
  if osStat w outputPath = StatResult.file ∨ osStat w outputPath = StatResult.dir then
    Outcome.exited 1 (w.print (Message.fileAlreadyExists outputPath))
  else if env.parse templateContent = false then
    Outcome.exited 1 (w.print Message.errorParsingTemplate)
  else
    match env.execute templateContent baseName with
    | none => Outcome.exited 1 (w.print Message.errorExecutingTemplate)
    | some buf =>
      match osWriteFile w outputPath buf with
      | none => Outcome.exited 1 (w.print Message.errorWritingFile)
      | some w1 => Outcome.returned (w1.print (Message.generated outputPath))

/-- First part of `generateFile` after the template is read: the directory of
the path is created, unless it is `.` or empty. -/
def ensureDir (dir : GoString) (w : World) : Outcome :=
  if dir ≠ [46] ∧ dir ≠ [] then
    match osMkdirAll w dir with
    | none => Outcome.exited 1 (w.print Message.errorCreatingDirectory)
    | some w1 => Outcome.returned w1
  else Outcome.returned w

/-- The bloc directory is made, after the line that says so. -/
def createBlocDir (blocPath : GoString) (w : World) : Outcome :=
  let w1 := w.print Message.creatingBlocDirectory
  match osMkdirAll w1 blocPath with
  | none => Outcome.exited 1 (w1.print Message.errorCreatingBlocDirectory)
  | some w2 => Outcome.returned w2

/-- Middle part of `generateFile`: unless the type is `Page`, the bloc
directory is looked for with `os.Stat` and created under the condition
`os.IsNotExist(err) || !info.IsDir()`.  When `os.Stat` fails with another
error, `info` is `nil` and the call `info.IsDir()` panics. -/
def ensureBlocDir (ft : FileTypes) (fullType dir : GoString) (w : World) : Outcome :=
  if fullType ≠ ft.Page then
    let blocPath := filepathJoin [dir, ascii "bloc"]
    match osStat w blocPath with
    | StatResult.notExist => createBlocDir blocPath w
    | StatResult.file => createBlocDir blocPath w
    | StatResult.dir => Outcome.returned w
    | StatResult.failed => Outcome.panicked w
  else Outcome.returned w

/-- `generateFile` of `main.go`. -/
def generateFile (env : Env) (ft : FileTypes) (fullType path : GoString) (w : World) : Outcome :=
  let templatePath := filepathJoin [ascii "templates", fullType ++ ascii ".tmpl"]
  if osStat w templatePath = StatResult.notExist then
    Outcome.exited 1 ((w.print (Message.templateNotFound templatePath)).print
      Message.ensureInstallation)
  else
    match osReadFile w templatePath with
    | none => Outcome.exited 1 (w.print Message.errorReadingTemplate)
    | some templateContent =>
      let dir := filepathDir path
      let baseName := filepathBase path
      (ensureDir dir w).andThen fun w1 =>
        let filename := generatedFilename env ft fullType baseName
        (ensureBlocDir ft fullType dir w1).andThen fun w2 =>
          let outputPath := filepathJoin [dir, filename]
          writeOutput env templateContent baseName outputPath w2

/-- The `typeMap` of `generateBoilerplate`. -/
def typeMap : List (GoString × GoString) :=
  [(ascii "p", ascii "page"), (ascii "b", ascii "bloc"), (ascii "e", ascii "event"),
   (ascii "s", ascii "state")]

/-- The flag `skipBloc` of `generateBoilerplate`: with more than two
arguments, whether the third one is `--skip-bloc`; `more` are the arguments
after the second. -/
def skipBlocOf (more : List GoString) : Bool :=
  match more with
  | [] => false
  | flag :: _ => decide (flag = ascii "--skip-bloc")

/-- `generateBoilerplate` of `main.go`; `args` are its variadic arguments. -/
def generateBoilerplate (env : Env) (ft : FileTypes) (args : List GoString) (w : World) :
    Outcome :=
  match args with
  | [] => Outcome.exited 1 ((w.print Message.expectedArguments).print Message.runHelp)
  | [_] => Outcome.panicked w
  | templateType :: path :: more =>
    let skipBloc := skipBlocOf more
    let fullType := (typeMap.lookup templateType).getD templateType
    if !skipBloc && decide (fullType = ft.Page) then
      (generateFile env ft ft.BloCPage path w).andThen fun w1 =>
      (generateFile env ft ft.BLoC path w1).andThen fun w2 =>
      (generateFile env ft ft.Event path w2).andThen fun w3 =>
      generateFile env ft ft.State path w3
    else generateFile env ft fullType path w

/-! ## The reference tokenisation of the specification -/

/-- Says whether the string starts with a byte of `[A-Z]`. -/
def startsUpper : GoString → Bool
  | [] => false
  | b :: _ => isUpper b

/-- The words of the specification: the string is cut at every byte that is
not an ASCII letter or digit (the byte is dropped), and between a byte of
`[a-z0-9]` and an immediately following byte of `[A-Z]`.  Empty words are
kept here. -/
def specWords : GoString → List GoString
  | [] => [[]]
  | b :: rest =>
    if !isAlnum b then [] :: specWords rest
    else if isLowerDigit b && startsUpper rest then [b] :: specWords rest
    else consHead b (specWords rest)

/-- The reference tokenisation of the specification: discard the empty words,
lowercase each word, join the words with a single underscore. -/
def specSnakeCase (s : GoString) : GoString :=
  [95].intercalate (((specWords s).filter (fun w => w ≠ [])).map (fun w => w.map asciiLower))

/-! ## The paths and the conditions of the claims -/

/-- The path of the template of a type, as `generateFile` computes it. -/
def templatePathOf (fullType : GoString) : GoString :=
  filepathJoin [ascii "templates", fullType ++ ascii ".tmpl"]

/-- The path of the bloc directory, as `generateFile` computes it. -/
def blocDirOf (path : GoString) : GoString := filepathJoin [filepathDir path, ascii "bloc"]

/-- The path of the output file, as `generateFile` computes it. -/
def outputPathOf (env : Env) (ft : FileTypes) (fullType path : GoString) : GoString :=
  filepathJoin [filepathDir path, generatedFilename env ft fullType (filepathBase path)]

/-- The snake-case form of the last element of the path. -/
def snakeName (env : Env) (path : GoString) : GoString :=
  toSnakeCase env.tables (filepathBase path)

/-- The page file of a path: `<snake>_page.dart` in its directory. -/
def pageFile (env : Env) (path : GoString) : GoString :=
  filepathJoin [filepathDir path, snakeName env path ++ ascii "_page.dart"]

/-- The bloc file of a path: `bloc/<snake>_bloc.dart` in its directory. -/
def blocFile (env : Env) (path : GoString) : GoString :=
  filepathJoin [filepathDir path, ascii "bloc/" ++ snakeName env path ++ ascii "_bloc.dart"]

/-- The event file of a path: `bloc/<snake>_event.dart` in its directory. -/
def eventFile (env : Env) (path : GoString) : GoString :=
  filepathJoin [filepathDir path, ascii "bloc/" ++ snakeName env path ++ ascii "_event.dart"]

/-- The state file of a path: `bloc/<snake>_state.dart` in its directory. -/
def stateFile (env : Env) (path : GoString) : GoString :=
  filepathJoin [filepathDir path, ascii "bloc/" ++ snakeName env path ++ ascii "_state.dart"]

/-- The template of a type is a regular file that can be read, parsed and
executed for the given name, with output `out`. -/
def TemplateReady (env : Env) (w : World) (fullType name out : GoString) : Prop :=
  ∃ c, w.files (templatePathOf fullType) = some c ∧ w.refuseRead (templatePathOf fullType) = false ∧
    env.parse c = true ∧ env.execute c name = some out

/-- The call `os.MkdirAll(path)` succeeds: no regular file is in the way and
the system does not refuse. -/
@[reducible]
def CanCreateDir (w : World) (path : GoString) : Prop :=
  w.files path = none ∧ w.refuseMkdir path = false

/-- The file can be written as a new one: nothing is at the path and the
system does not refuse the write. -/
@[reducible]
def CanWriteNew (w : World) (path : GoString) : Prop :=
  osStat w path = StatResult.notExist ∧ w.refuseWrite path = false

/-- The constants of `fileType` the `switch` of `generateFile` tells apart. -/
@[reducible]
def FileTypes.Distinct (ft : FileTypes) : Prop :=
  (ft.BLoC ≠ ft.Page ∧ ft.BLoC ≠ ft.BloCPage) ∧
  (ft.Event ≠ ft.Page ∧ ft.Event ≠ ft.BloCPage ∧ ft.Event ≠ ft.BLoC) ∧
  (ft.State ≠ ft.Page ∧ ft.State ≠ ft.BloCPage ∧ ft.State ≠ ft.BLoC ∧ ft.State ≠ ft.Event)

/-- The conditions under which `generateFile` gets as far as the check of the
output file: the template is read, the directory of the path is there or
made, and so is the bloc directory unless the type is `Page`. -/
def ReachesOutputCheck (ft : FileTypes) (w : World) (fullType path : GoString) : Prop :=
  (∃ c, osReadFile w (templatePathOf fullType) = some c) ∧
  (filepathDir path = [46] ∨ CanCreateDir w (filepathDir path)) ∧
  (fullType = ft.Page ∨ osStat w (blocDirOf path) = StatResult.dir ∨
    CanCreateDir w (blocDirOf path))

/-! ## Sample installations -/

/-- Modelled from the spec: the values of the constants of package
`constants`, which is not among the source files.  The spec names the types
page, bloc, event and state; the name of the page-with-bloc template is not
given there and `bloc_page` stands for it. -/
def sampleTypes : FileTypes :=
  ⟨ascii "page", ascii "bloc_page", ascii "bloc", ascii "event", ascii "state"⟩

/-- A template engine for templates without actions: every text parses and is
its own output. -/
def plainEnv : Env := ⟨noCaseTables, fun _ => true, fun text _ => some text⟩

/-- An installation with the five templates and nothing else; no call is
refused. -/
def sampleWorld : World where
  files := fun p =>
    if p = ascii "templates/page.tmpl" then some (ascii "page")
    else if p = ascii "templates/bloc_page.tmpl" then some (ascii "page with bloc")
    else if p = ascii "templates/bloc.tmpl" then some (ascii "bloc")
    else if p = ascii "templates/event.tmpl" then some (ascii "event")
    else if p = ascii "templates/state.tmpl" then some (ascii "state")
    else none
  dirs := fun p => decide (p = ascii "templates")
  refuseStat := fun _ => false
  refuseRead := fun _ => false
  refuseMkdir := fun _ => false
  refuseWrite := fun _ => false
  stdout := []
  written := []

/-- The sample installation with a regular file at `pages/bloc`. -/
def blockedWorld : World :=
  { sampleWorld with
    files := fun p => if p = ascii "pages/bloc" then some [] else sampleWorld.files p
    dirs := fun p => decide (p = ascii "pages") || sampleWorld.dirs p }

/-- The sample installation with a regular file at `pages`. -/
def fileAtPagesWorld : World :=
  { sampleWorld with
    files := fun p => if p = ascii "pages" then some [] else sampleWorld.files p }

/-- The sample installation with the file `widgets/custom_btn.dart` in place;
there is no template `w`. -/
def widgetWorld : World :=
  { sampleWorld with
    files := fun p =>
      if p = ascii "widgets/custom_btn.dart" then some (ascii "old") else sampleWorld.files p
    dirs := fun p => decide (p = ascii "widgets") || sampleWorld.dirs p }

/-- The sample installation with the file `pages/home_page.dart` in place. -/
def homePageWorld : World :=
  { sampleWorld with
    files := fun p =>
      if p = ascii "pages/home_page.dart" then some (ascii "old") else sampleWorld.files p
    dirs := fun p => decide (p = ascii "pages") || sampleWorld.dirs p }

/-- The sample installation with the file `pages/home_page.dart` in place and
a regular file at `pages/bloc`. -/
def blockedHomePageWorld : World :=
  { homePageWorld with
    files := fun p => if p = ascii "pages/bloc" then some [] else homePageWorld.files p }

/-- The sample installation with the file `pages/home_page.dart` in place and
an `os.Stat` that fails at `pages/bloc`, as for a symbolic link that leads
back to itself. -/
def statFailsWorld : World :=
  { homePageWorld with refuseStat := fun p => decide (p = ascii "pages/bloc") }

/-! ## Notions of the proofs -/

/-- The pieces of a string between its bytes outside `[a-zA-Z0-9]`. -/
def alnumWords : GoString → List GoString
  | [] => [[]]
  | b :: rest => if isAlnum b then consHead b (alnumWords rest) else [] :: alnumWords rest

/-- Join the non-empty words with single underscores. -/
def joinWords : List GoString → GoString
  | [] => []
  | w :: ws =>
    if w = [] then joinWords ws
    else if joinWords ws = [] then w
    else w ++ 95 :: joinWords ws

/-- Like `joinWords`, but the first word is kept with its separator even when
it is empty. -/
def joinTail : List GoString → GoString
  | [] => []
  | w :: ws => if joinWords ws = [] then w else w ++ 95 :: joinWords ws

/-- Every byte of every word is an ASCII letter or digit. -/
def AlnumWords (ws : List GoString) : Prop := ∀ w ∈ ws, ∀ b ∈ w, isAlnum b = true

/-- The words of the specification, lowercased. -/
def lowerWords (s : GoString) : List GoString := (specWords s).map (fun w => w.map asciiLower)

/-- Words of ASCII bytes without delimiters. -/
def PlainWords (ws : List GoString) : Prop := ∀ w ∈ ws, ∀ b ∈ w, b < 128 ∧ isDelim b = false

/-- A path element that `filepath.Clean` keeps as it is: not empty, not `.`
or `..`, no slash in it. -/
def SimpleName (f : GoString) : Prop := f ≠ [] ∧ f ≠ [46] ∧ f ≠ [46, 46] ∧ 47 ∉ f

/-- The stacks `filepath.Clean` builds: no empty element, no `.`, no slash in
an element, and below a `..` only `..`, none at all in a rooted path. -/
def NormStack (rooted : Bool) : List GoString → Prop
  | [] => True
  | e :: below =>
    e ≠ [] ∧ e ≠ [46] ∧ 47 ∉ e ∧
    (e = [46, 46] → rooted = false ∧ ∀ x ∈ below, x = [46, 46]) ∧ NormStack rooted below

/-- The elements of a path that are neither empty nor `.`. -/
def pathElems (p : GoString) : List GoString :=
  (splitSlash p).filter (fun e => decide (e ≠ [] ∧ e ≠ [46]))

/-- The world after a successful call of `generateFile` that wrote `out` to
`target`. -/
structure Generated (w w1 : World) (path target out : GoString) : Prop where
  files : w1.files = (fun q => if q = target then some out else w.files q)
  dirs_mono : ∀ q, w.dirs q = true → w1.dirs q = true
  dirs_new : ∀ q, w1.dirs q = true → w.dirs q = true ∨ q = filepathDir path ∨ q = blocDirOf path
  refuseStat : w1.refuseStat = w.refuseStat
  refuseRead : w1.refuseRead = w.refuseRead
  refuseMkdir : w1.refuseMkdir = w.refuseMkdir
  refuseWrite : w1.refuseWrite = w.refuseWrite
  written : w1.written = w.written ++ [(target, out)]

/-- A world that differs from `w` at most in having more directories, all
among `ds`, and in the line of the bloc directory printed. -/
structure SameFiles (w w1 : World) (ds : List GoString) : Prop where
  files : w1.files = w.files
  dirs_mono : ∀ q, w.dirs q = true → w1.dirs q = true
  dirs_new : ∀ q, w1.dirs q = true → w.dirs q = true ∨ q ∈ ds
  refuseStat : w1.refuseStat = w.refuseStat
  refuseRead : w1.refuseRead = w.refuseRead
  refuseMkdir : w1.refuseMkdir = w.refuseMkdir
  refuseWrite : w1.refuseWrite = w.refuseWrite
  written : w1.written = w.written
  stdout : w1.stdout = w.stdout ∨ w1.stdout = w.stdout ++ [Message.creatingBlocDirectory]

/-- What a call that ended without a write has to show for the claim on
existing output files: the files and the log of writes as before, and, when
`os.Stat` of the bloc directory gives an answer, exit status 1 and the line of
the existing file printed last exactly under the conditions to get there. -/
def ExistsResult (ft : FileTypes) (w : World) (fullType path out : GoString) (o : Outcome) :
    Prop :=
  o.world.files = w.files ∧ o.world.written = w.written ∧
  ((fullType = ft.Page ∨ osStat w (blocDirOf path) ≠ StatResult.failed) →
    o.exitCode = some 1 ∧
    ∃ lines, o.world.stdout = w.stdout ++ lines ∧
      (lines.getLast? = some (Message.fileAlreadyExists out) ↔
        ReachesOutputCheck ft w fullType path))

/-! # Theorems -/

/-! ## Facts about bytes -/

theorem isAlnum_of_isLowerDigit {b : Nat} (h : isLowerDigit b = true) : isAlnum b = true := by
  simp only [isLowerDigit, isAlnum, isLower, isUpper, isDigit, Bool.or_eq_true, Bool.and_eq_true,
    decide_eq_true_eq] at *
  omega

theorem isAlnum_of_isUpper {b : Nat} (h : isUpper b = true) : isAlnum b = true := by
  simp only [isAlnum, isLower, isUpper, isDigit, Bool.or_eq_true, Bool.and_eq_true,
    decide_eq_true_eq] at *
  omega

theorem isLowerDigit_false_of_isUpper {b : Nat} (h : isUpper b = true) :
    isLowerDigit b = false := by
  cases hl : isLowerDigit b
  · rfl
  · simp only [isLowerDigit, isLower, isUpper, isDigit, Bool.or_eq_true, Bool.and_eq_true,
      decide_eq_true_eq] at *
    omega

theorem isAlnum_lt {b : Nat} (h : isAlnum b = true) : b < 128 := by
  simp only [isAlnum, isLower, isUpper, isDigit, Bool.or_eq_true, Bool.and_eq_true,
    decide_eq_true_eq] at *
  omega

theorem isAlnum_ne_underscore {b : Nat} (h : isAlnum b = true) : b ≠ 95 := by
  simp only [isAlnum, isLower, isUpper, isDigit, Bool.or_eq_true, Bool.and_eq_true,
    decide_eq_true_eq] at *
  omega

theorem isLowerDigit_asciiLower {b : Nat} (h : isAlnum b = true) :
    isLowerDigit (asciiLower b) = true := by
  unfold asciiLower
  split
  · rename_i hu
    simp only [isLowerDigit, isLower, isUpper, isDigit, Bool.or_eq_true, Bool.and_eq_true,
      decide_eq_true_eq] at *
    omega
  · rename_i hu
    simp only [isLowerDigit, isAlnum, isLower, isUpper, isDigit, Bool.or_eq_true,
      Bool.and_eq_true, decide_eq_true_eq] at *
    omega

theorem asciiLower_of_isLowerDigit {b : Nat} (h : isLowerDigit b = true) : asciiLower b = b := by
  unfold asciiLower
  split
  · rename_i hu
    simp only [isLowerDigit, isLower, isUpper, isDigit, Bool.or_eq_true, Bool.and_eq_true,
      decide_eq_true_eq] at *
    omega
  · rfl

/-! ## Joining words -/

theorem joinWords_eq_intercalate (ws : List GoString) :
    joinWords ws = [95].intercalate (ws.filter (fun w => w ≠ [])) := by
  induction ws with
  | nil => rfl
  | cons w ws ih =>
    unfold joinWords
    by_cases hw : w = []
    · simp [hw, ih]
    · rw [if_neg hw, ih]
      simp only [List.filter, hw, ne_eq, not_false_eq_true, decide_True]
      cases hf : ws.filter (fun w => w ≠ []) with
      | nil => simp [List.intercalate]
      | cons v vs =>
        have hv : v ≠ [] := by
          have : v ∈ ws.filter (fun w => w ≠ []) := by rw [hf]; simp
          simpa using (List.mem_filter.1 this).2
        have hne : [95].intercalate (v :: vs) ≠ [] := by
          cases vs with
          | nil => simpa [List.intercalate] using hv
          | cons u us => simp [List.intercalate, hv]
        rw [if_neg hne]
        simp [List.intercalate]

/-! ## The pipeline of `toSnakeCase` -/

theorem rdropWhile_cons (p : Nat → Bool) (a : Nat) (l : List Nat) :
    (a :: l).rdropWhile p =
      if l.rdropWhile p = [] ∧ p a = true then [] else a :: l.rdropWhile p := by
  induction l using List.reverseRecOn generalizing a with
  | nil =>
    by_cases h : p a = true
    · simp [List.rdropWhile, h]
    · simp [List.rdropWhile, h]
  | append_singleton l x ih =>
    have e : a :: (l ++ [x]) = (a :: l) ++ [x] := rfl
    by_cases hx : p x = true
    · rw [e, List.rdropWhile_concat_pos _ _ _ hx, List.rdropWhile_concat_pos _ _ _ hx]
      exact ih a
    · rw [e, List.rdropWhile_concat_neg _ _ _ hx, List.rdropWhile_concat_neg _ _ _ hx]
      simp

theorem alnumWords_consHead {b : Nat} {ws : List GoString} (hb : isAlnum b = true)
    (h : AlnumWords ws) : AlnumWords (consHead b ws) := by
  cases ws with
  | nil =>
    intro w hw c hc
    simp [consHead] at hw
    subst hw
    simp at hc
    subst hc
    exact hb
  | cons v vs =>
    intro w hw c hc
    simp only [consHead, List.mem_cons] at hw
    rcases hw with rfl | hw
    · rcases List.mem_cons.1 hc with rfl | hc
      · exact hb
      · exact h v (by simp) c hc
    · exact h w (by simp [hw]) c hc

theorem alnumWords_alnum (x : GoString) : AlnumWords (alnumWords x) := by
  induction x with
  | nil => intro w hw c hc; simp [alnumWords] at hw; subst hw; simp at hc
  | cons b rest ih =>
    unfold alnumWords
    by_cases hb : isAlnum b = true
    · rw [if_pos hb]; exact alnumWords_consHead hb ih
    · rw [if_neg hb]
      intro w hw c hc
      rcases List.mem_cons.1 hw with rfl | hw
      · simp at hc
      · exact ih w hw c hc

theorem alnumWords_ne_nil (x : GoString) : alnumWords x ≠ [] := by
  cases x with
  | nil => simp [alnumWords]
  | cons b rest =>
    unfold alnumWords
    split
    · cases alnumWords rest <;> simp [consHead]
    · simp

theorem joinWords_alnum {ws : List GoString} (h : AlnumWords ws) :
    ∀ b ∈ joinWords ws, isAlnum b = true ∨ b = 95 := by
  induction ws with
  | nil => intro b hb; simp [joinWords] at hb
  | cons w ws ih =>
    have hws : AlnumWords ws := fun v hv => h v (by simp [hv])
    intro b hb
    unfold joinWords at hb
    split at hb
    · exact ih hws b hb
    · split at hb
      · exact Or.inl (h w (by simp) b hb)
      · rcases List.mem_append.1 hb with hb | hb
        · exact Or.inl (h w (by simp) b hb)
        · rcases List.mem_cons.1 hb with rfl | hb
          · exact Or.inr rfl
          · exact ih hws b hb

theorem joinWords_head {ws : List GoString} (h : AlnumWords ws) :
    joinWords ws = [] ∨ ∃ b l, joinWords ws = b :: l ∧ isAlnum b = true := by
  induction ws with
  | nil => left; rfl
  | cons w ws ih =>
    have hws : AlnumWords ws := fun v hv => h v (by simp [hv])
    unfold joinWords
    by_cases hw : w = []
    · rw [if_pos hw]; exact ih hws
    · rw [if_neg hw]
      right
      cases w with
      | nil => exact absurd rfl hw
      | cons c cs =>
        have hc : isAlnum c = true := h (c :: cs) (by simp) c (by simp)
        split
        · exact ⟨c, cs, rfl, hc⟩
        · exact ⟨c, cs ++ 95 :: joinWords ws, rfl, hc⟩

theorem joinTail_consHead (b : Nat) (ws : List GoString) (h : ws ≠ []) :
    joinTail (consHead b ws) = b :: joinTail ws := by
  cases ws with
  | nil => exact absurd rfl h
  | cons w ws =>
    simp only [consHead, joinTail]
    split <;> rfl

theorem joinWords_consHead (b : Nat) (ws : List GoString) (h : ws ≠ []) :
    joinWords (consHead b ws) = b :: joinTail ws := by
  cases ws with
  | nil => exact absurd rfl h
  | cons w ws =>
    simp only [consHead, joinWords, joinTail]
    rw [if_neg (List.cons_ne_nil b w)]
    split <;> rfl

theorem dropWhile_underscore_cons (l : List Nat) :
    (95 :: l).dropWhile (fun b => [95].contains b) = l.dropWhile (fun b => [95].contains b) := by
  simp [List.dropWhile]

theorem dropWhile_underscore_of_ne {c : Nat} (l : List Nat) (h : c ≠ 95) :
    (c :: l).dropWhile (fun b => [95].contains b) = c :: l := by
  simp [List.dropWhile, h]

theorem replaceNonAlnumAux_alnum {b : Nat} (f : Bool) (rest : GoString) (hb : isAlnum b = true) :
    replaceNonAlnumAux f (b :: rest) = b :: replaceNonAlnumAux false rest := by
  simp [replaceNonAlnumAux, hb]

theorem replaceNonAlnumAux_true {b : Nat} (rest : GoString) (hb : ¬ isAlnum b = true) :
    replaceNonAlnumAux true (b :: rest) = replaceNonAlnumAux true rest := by
  simp [replaceNonAlnumAux, hb]

theorem replaceNonAlnumAux_false {b : Nat} (rest : GoString) (hb : ¬ isAlnum b = true) :
    replaceNonAlnumAux false (b :: rest) = 95 :: replaceNonAlnumAux true rest := by
  simp [replaceNonAlnumAux, hb]

theorem rdropWhile_replaceNonAlnumAux (x : GoString) :
    (replaceNonAlnumAux true x).rdropWhile (fun b => [95].contains b) = joinWords (alnumWords x) ∧
    (replaceNonAlnumAux false x).rdropWhile (fun b => [95].contains b) = joinTail (alnumWords x) := by
  induction x with
  | nil => simp [replaceNonAlnumAux, alnumWords, joinWords, joinTail, List.rdropWhile]
  | cons b rest ih =>
    by_cases hb : isAlnum b = true
    · have hne : ¬ ([95].contains b = true) := by
        have := isAlnum_ne_underscore hb
        simpa using this
      have key : ∀ f, (replaceNonAlnumAux f (b :: rest)).rdropWhile (fun b => [95].contains b)
          = b :: joinTail (alnumWords rest) := by
        intro f
        rw [replaceNonAlnumAux_alnum f rest hb, rdropWhile_cons, ih.2, if_neg (fun h => hne h.2)]
      simp only [alnumWords, hb, if_true]
      rw [key, key, joinWords_consHead _ _ (alnumWords_ne_nil rest),
        joinTail_consHead _ _ (alnumWords_ne_nil rest)]
      exact ⟨rfl, rfl⟩
    · rw [replaceNonAlnumAux_true rest hb, replaceNonAlnumAux_false rest hb]
      simp only [alnumWords, hb, if_false, Bool.false_eq_true]
      constructor
      · rw [ih.1]; simp [joinWords]
      · rw [rdropWhile_cons, ih.1]
        simp only [joinTail]
        by_cases hj : joinWords (alnumWords rest) = []
        · simp [hj]
        · simp [hj]

theorem stringsTrim_replaceNonAlnum (x : GoString) :
    stringsTrim (replaceNonAlnum x) [95] = joinWords (alnumWords x) := by
  unfold stringsTrim replaceNonAlnum
  rw [(rdropWhile_replaceNonAlnumAux x).2]
  have hal := alnumWords_alnum x
  cases hws : alnumWords x with
  | nil => exact absurd hws (alnumWords_ne_nil x)
  | cons w ws =>
    rw [hws] at hal
    have hws2 : AlnumWords ws := fun v hv => hal v (by simp [hv])
    have hdrop : (joinWords ws).dropWhile (fun b => [95].contains b) = joinWords ws := by
      rcases joinWords_head hws2 with h | ⟨c, l, h, hc⟩
      · rw [h]; rfl
      · rw [h]
        exact dropWhile_underscore_of_ne l (isAlnum_ne_underscore hc)
    cases w with
    | nil =>
      simp only [joinTail, joinWords, if_true]
      split
      · rename_i hj; rw [hj]; rfl
      · rw [List.nil_append, dropWhile_underscore_cons, hdrop]
    | cons c cs =>
      have hc : isAlnum c = true := hal (c :: cs) (by simp) c (by simp)
      have hne := isAlnum_ne_underscore hc
      simp only [joinTail, joinWords]
      rw [if_neg (List.cons_ne_nil c cs)]
      split
      · exact dropWhile_underscore_of_ne cs hne
      · exact dropWhile_underscore_of_ne _ hne

/-! ## The camel boundaries -/

theorem alnumWords_cons (b : Nat) (rest : GoString) :
    alnumWords (b :: rest) =
      if isAlnum b then consHead b (alnumWords rest) else [] :: alnumWords rest := by
  rw [alnumWords]

theorem specWords_cons (b : Nat) (rest : GoString) :
    specWords (b :: rest) =
      if !isAlnum b then [] :: specWords rest
      else if isLowerDigit b && startsUpper rest then [b] :: specWords rest
      else consHead b (specWords rest) := by
  rw [specWords]

theorem specWords_ne_nil (s : GoString) : specWords s ≠ [] := by
  cases s with
  | nil => simp [specWords]
  | cons b rest =>
    rw [specWords_cons]
    split
    · simp
    · split
      · simp
      · cases specWords rest <;> simp [consHead]

theorem alnumWords_replaceCamelBoundary (s : GoString) :
    alnumWords (replaceCamelBoundary s) = specWords s := by
  induction s using replaceCamelBoundary.induct with
  | case1 a b rest h ih =>
    simp only [Bool.and_eq_true] at h
    have ha := isAlnum_of_isLowerDigit h.1
    have hb := isAlnum_of_isUpper h.2
    have hbl := isLowerDigit_false_of_isUpper h.2
    have h95 : isAlnum 95 = false := by decide
    rw [replaceCamelBoundary, if_pos (by simp [h.1, h.2])]
    rw [alnumWords_cons, alnumWords_cons, alnumWords_cons, ih, specWords_cons, specWords_cons]
    simp only [ha, hb, h95, h.1, h.2, hbl, startsUpper, if_true, Bool.not_true,
      Bool.false_eq_true, if_false, Bool.and_self, Bool.false_and]
    rfl
  | case2 a b rest h ih =>
    rw [replaceCamelBoundary, if_neg h, alnumWords_cons, ih, specWords_cons a]
    by_cases ha : isAlnum a = true
    · have hs : startsUpper (b :: rest) = isUpper b := rfl
      rw [hs]
      simp only [ha, if_true, Bool.not_true, Bool.false_eq_true, if_false]
      rw [if_neg h]
    · simp [ha]
  | case3 s h =>
    match s, h with
    | [], _ => simp [replaceCamelBoundary, alnumWords, specWords]
    | [a], _ =>
      simp only [replaceCamelBoundary, alnumWords, specWords, startsUpper]
      by_cases ha : isAlnum a = true <;> simp [ha]
    | a :: b :: rest, h => exact absurd rfl (h a b rest)

theorem specWords_alnum (s : GoString) : AlnumWords (specWords s) := by
  rw [← alnumWords_replaceCamelBoundary]
  exact alnumWords_alnum _

/-! ## Lower case -/

theorem stringsToLower_ascii (t : CaseTables) {s : GoString} (h : ∀ b ∈ s, b < 128) :
    stringsToLower t s = s.map asciiLower := by
  unfold stringsToLower
  rw [if_pos]
  rw [List.all_eq_true]
  intro b hb
  simpa using h b hb

theorem stringsToUpper_ascii (t : CaseTables) {s : GoString} (h : ∀ b ∈ s, b < 128) :
    stringsToUpper t s = s.map asciiUpper := by
  unfold stringsToUpper
  rw [if_pos]
  rw [List.all_eq_true]
  intro b hb
  simpa using h b hb

theorem map_joinWords (f : Nat → Nat) (hf : f 95 = 95) (ws : List GoString) :
    (joinWords ws).map f = joinWords (ws.map (fun w => w.map f)) := by
  induction ws with
  | nil => rfl
  | cons w ws ih =>
    simp only [joinWords, List.map_cons]
    by_cases hw : w = []
    · simp [hw, ih]
    · have hw2 : w.map f ≠ [] := by simpa using hw
      rw [if_neg hw, if_neg hw2, ← ih]
      by_cases hj : joinWords ws = []
      · simp [hj]
      · have hj2 : (joinWords ws).map f ≠ [] := by simpa using hj
        rw [if_neg hj, if_neg hj2]
        simp [hf]

theorem lowerWords_lowerDigit (s : GoString) :
    ∀ w ∈ lowerWords s, ∀ b ∈ w, isLowerDigit b = true := by
  intro w hw b hb
  simp only [lowerWords, List.mem_map] at hw
  obtain ⟨v, hv, rfl⟩ := hw
  obtain ⟨c, hc, rfl⟩ := List.mem_map.1 hb
  exact isLowerDigit_asciiLower (specWords_alnum s v hv c hc)

theorem lowerWords_alnum (s : GoString) : AlnumWords (lowerWords s) :=
  fun w hw b hb => isAlnum_of_isLowerDigit (lowerWords_lowerDigit s w hw b hb)

/-- The pipeline of `toSnakeCase` computes the underscore-join of the
non-empty lowercased words. -/
theorem toSnakeCase_eq_joinWords (t : CaseTables) (s : GoString) :
    toSnakeCase t s = joinWords (lowerWords s) := by
  unfold toSnakeCase
  simp only
  rw [stringsTrim_replaceNonAlnum, alnumWords_replaceCamelBoundary, stringsToLower_ascii,
    map_joinWords _ (by decide)]
  · rfl
  · intro b hb
    rcases joinWords_alnum (specWords_alnum s) b hb with h | h
    · exact isAlnum_lt h
    · omega

theorem filter_map_ne_nil (f : Nat → Nat) (ws : List GoString) :
    (ws.map (fun w => w.map f)).filter (fun w => w ≠ []) =
      (ws.filter (fun w => w ≠ [])).map (fun w => w.map f) := by
  induction ws with
  | nil => rfl
  | cons w ws ih =>
    by_cases hw : w = []
    · subst hw
      simpa using ih
    · have hw2 : w.map f ≠ [] := by simpa using hw
      rw [List.map_cons, List.filter_cons_of_pos (by simpa using hw2),
        List.filter_cons_of_pos (by simpa using hw), List.map_cons, ih]

theorem toSnakeCase_eq_spec (t : CaseTables) (s : GoString) :
    toSnakeCase t s = specSnakeCase s := by
  rw [toSnakeCase_eq_joinWords, joinWords_eq_intercalate, lowerWords, filter_map_ne_nil]
  rfl

/-! ## When the result is empty -/

theorem joinWords_eq_nil (ws : List GoString) : joinWords ws = [] ↔ ∀ w ∈ ws, w = [] := by
  induction ws with
  | nil => simp [joinWords]
  | cons w ws ih =>
    unfold joinWords
    by_cases hw : w = []
    · rw [if_pos hw, ih]; simp [hw]
    · rw [if_neg hw]
      constructor
      · intro h
        split at h
        · exact absurd h hw
        · cases w <;> simp at h hw
      · intro h
        exact absurd (h w (by simp)) hw

theorem specWords_all_nil (s : GoString) :
    (∀ w ∈ specWords s, w = []) ↔ ∀ b ∈ s, isAlnum b = false := by
  induction s with
  | nil => simp [specWords]
  | cons b rest ih =>
    rw [specWords_cons]
    by_cases hb : isAlnum b = true
    · have hne : ¬ ∀ c ∈ b :: rest, isAlnum c = false := by
        intro h
        have := h b (by simp)
        rw [hb] at this
        exact absurd this (by decide)
      simp only [hb, Bool.not_true, Bool.false_eq_true, if_false]
      constructor
      · intro h
        exfalso
        split at h
        · exact absurd (h [b] (by simp)) (by simp)
        · cases hs : specWords rest with
          | nil => rw [hs] at h; exact absurd (h [b] (by simp [consHead])) (by simp)
          | cons w ws => rw [hs] at h; exact absurd (h (b :: w) (by simp [consHead])) (by simp)
      · intro h
        exact absurd h hne
    · have hb2 : isAlnum b = false := by simpa using hb
      simp only [hb2, Bool.not_false, if_true, List.mem_cons, forall_eq_or_imp, true_and]
      exact ih

theorem toSnakeCase_eq_nil_iff (t : CaseTables) (s : GoString) :
    toSnakeCase t s = [] ↔ ∀ b ∈ s, isAlnum b = false := by
  rw [toSnakeCase_eq_joinWords, joinWords_eq_nil, ← specWords_all_nil]
  simp [lowerWords]

/-! ## Strings in snake form -/

theorem replaceCamelBoundary_of_noUpper (y : GoString) (h : ∀ b ∈ y, isUpper b = false) :
    replaceCamelBoundary y = y := by
  induction y using replaceCamelBoundary.induct with
  | case1 a b rest hab ih =>
    simp only [Bool.and_eq_true] at hab
    have := h b (by simp)
    rw [hab.2] at this
    exact absurd this (by decide)
  | case2 a b rest hab ih =>
    rw [replaceCamelBoundary, if_neg hab, ih (fun c hc => h c (by simp [hc]))]
  | case3 s hs =>
    match s, hs with
    | [], _ => rfl
    | [a], _ => rfl
    | a :: b :: rest, hs => exact absurd rfl (hs a b rest)

theorem alnumWords_of_alnum (w : GoString) (h : ∀ b ∈ w, isAlnum b = true) :
    alnumWords w = [w] := by
  induction w with
  | nil => rfl
  | cons b rest ih =>
    rw [alnumWords_cons, if_pos (h b (by simp)), ih (fun c hc => h c (by simp [hc]))]
    rfl

theorem alnumWords_append_sep (w : GoString) (c : Nat) (r : GoString)
    (h : ∀ b ∈ w, isAlnum b = true) (hc : isAlnum c = false) :
    alnumWords (w ++ c :: r) = w :: alnumWords r := by
  induction w with
  | nil => rw [List.nil_append, alnumWords_cons]; simp [hc]
  | cons b rest ih =>
    rw [List.cons_append, alnumWords_cons, if_pos (h b (by simp)),
      ih (fun c hc => h c (by simp [hc]))]
    rfl

theorem joinWords_alnumWords_joinWords {ws : List GoString} (h : AlnumWords ws) :
    joinWords (alnumWords (joinWords ws)) = joinWords ws := by
  induction ws with
  | nil => rfl
  | cons w ws ih =>
    have hws : AlnumWords ws := fun v hv => h v (by simp [hv])
    have hw : ∀ b ∈ w, isAlnum b = true := h w (by simp)
    rw [joinWords]
    by_cases hwn : w = []
    · rw [if_pos hwn]; exact ih hws
    · rw [if_neg hwn]
      by_cases hj : joinWords ws = []
      · rw [if_pos hj, alnumWords_of_alnum w hw]
        simp [joinWords, hwn]
      · rw [if_neg hj, alnumWords_append_sep w 95 _ hw (by decide), joinWords, if_neg hwn,
          ih hws, if_neg hj]

theorem joinWords_mem {ws : List GoString} {b : Nat} (hb : b ∈ joinWords ws) :
    b = 95 ∨ ∃ w ∈ ws, b ∈ w := by
  induction ws with
  | nil => simp [joinWords] at hb
  | cons w ws ih =>
    unfold joinWords at hb
    split at hb
    · rcases ih hb with h | ⟨v, hv, hbv⟩
      · exact Or.inl h
      · exact Or.inr ⟨v, by simp [hv], hbv⟩
    · split at hb
      · exact Or.inr ⟨w, by simp, hb⟩
      · rcases List.mem_append.1 hb with hb | hb
        · exact Or.inr ⟨w, by simp, hb⟩
        · rcases List.mem_cons.1 hb with rfl | hb
          · exact Or.inl rfl
          · rcases ih hb with h | ⟨v, hv, hbv⟩
            · exact Or.inl h
            · exact Or.inr ⟨v, by simp [hv], hbv⟩

theorem toSnakeCase_mem (t : CaseTables) (s : GoString) :
    ∀ b ∈ toSnakeCase t s, isLowerDigit b = true ∨ b = 95 := by
  intro b hb
  rw [toSnakeCase_eq_joinWords] at hb
  rcases joinWords_mem hb with h | ⟨w, hw, hbw⟩
  · exact Or.inr h
  · exact Or.inl (lowerWords_lowerDigit s w hw b hbw)

/-- A join of words of `[a-z0-9]` is returned unchanged. -/
theorem toSnakeCase_joinWords (t : CaseTables) (ws : List GoString)
    (h : ∀ w ∈ ws, ∀ b ∈ w, isLowerDigit b = true) :
    toSnakeCase t (joinWords ws) = joinWords ws := by
  have hal : AlnumWords ws := fun w hw b hb => isAlnum_of_isLowerDigit (h w hw b hb)
  have hmem : ∀ b ∈ joinWords ws, isLowerDigit b = true ∨ b = 95 := by
    intro b hb
    rcases joinWords_mem hb with e | ⟨w, hw, hbw⟩
    · exact Or.inr e
    · exact Or.inl (h w hw b hbw)
  have hup : ∀ b ∈ joinWords ws, isUpper b = false := by
    intro b hb
    rcases hmem b hb with h | h
    · cases hu : isUpper b
      · rfl
      · rw [isLowerDigit_false_of_isUpper hu] at h
        exact absurd h (by decide)
    · subst h; decide
  have hlow : (joinWords ws).map asciiLower = joinWords ws := by
    conv => rhs; rw [← List.map_id (joinWords ws)]
    apply List.map_congr_left
    intro b hb
    rcases hmem b hb with h | h
    · exact asciiLower_of_isLowerDigit h
    · subst h; decide
  rw [toSnakeCase_eq_joinWords, lowerWords, ← alnumWords_replaceCamelBoundary,
    replaceCamelBoundary_of_noUpper _ hup, ← map_joinWords _ (by decide),
    joinWords_alnumWords_joinWords hal]
  exact hlow

theorem toSnakeCase_idem (t : CaseTables) (s : GoString) :
    toSnakeCase t (toSnakeCase t s) = toSnakeCase t s := by
  rw [toSnakeCase_eq_joinWords t s]
  exact toSnakeCase_joinWords t _ (lowerWords_lowerDigit s)

theorem toSnakeCase_of_snake_form (t : CaseTables) (ws : List GoString)
    (h : ∀ w ∈ ws, w ≠ [] ∧ ∀ b ∈ w, isLower b = true ∨ isDigit b = true) :
    toSnakeCase t ([95].intercalate ws) = [95].intercalate ws := by
  have hf : ws.filter (fun w => w ≠ []) = ws := by
    rw [List.filter_eq_self]
    intro w hw
    simpa using (h w hw).1
  have e : [95].intercalate ws = joinWords ws := by
    rw [joinWords_eq_intercalate, hf]
  rw [e]
  apply toSnakeCase_joinWords
  intro w hw b hb
  simpa [isLowerDigit] using (h w hw).2 b hb

theorem joinWords_getLast {ws : List GoString} (h : AlnumWords ws) :
    ∀ b ∈ (joinWords ws).getLast?, isAlnum b = true := by
  induction ws with
  | nil => simp [joinWords]
  | cons w ws ih =>
    have hws : AlnumWords ws := fun v hv => h v (by simp [hv])
    have hw : ∀ b ∈ w, isAlnum b = true := h w (by simp)
    unfold joinWords
    by_cases hwn : w = []
    · rw [if_pos hwn]; exact ih hws
    · rw [if_neg hwn]
      by_cases hj : joinWords ws = []
      · rw [if_pos hj]
        intro b hb
        exact hw b (List.mem_of_mem_getLast? hb)
      · rw [if_neg hj]
        intro b hb
        have e : w ++ 95 :: joinWords ws = (w ++ [95]) ++ joinWords ws := by simp
        rw [e, List.getLast?_append_of_ne_nil _ hj] at hb
        exact ih hws b hb

theorem chain_of_alnum (w : GoString) (h : ∀ b ∈ w, isAlnum b = true) :
    List.Chain' (fun a b => ¬ (a = 95 ∧ b = 95)) w := by
  induction w with
  | nil => exact List.chain'_nil
  | cons c cs ih =>
    rw [List.chain'_cons']
    refine ⟨?_, ih (fun b hb => h b (by simp [hb]))⟩
    intro y _ hy
    exact isAlnum_ne_underscore (h c (by simp)) hy.1

theorem joinWords_chain {ws : List GoString} (h : AlnumWords ws) :
    List.Chain' (fun a b => ¬ (a = 95 ∧ b = 95)) (joinWords ws) := by
  induction ws with
  | nil => exact List.chain'_nil
  | cons w ws ih =>
    have hws : AlnumWords ws := fun v hv => h v (by simp [hv])
    have hw : ∀ b ∈ w, isAlnum b = true := h w (by simp)
    unfold joinWords
    by_cases hwn : w = []
    · rw [if_pos hwn]; exact ih hws
    · rw [if_neg hwn]
      by_cases hj : joinWords ws = []
      · rw [if_pos hj]; exact chain_of_alnum w hw
      · rw [if_neg hj, List.chain'_append]
        refine ⟨chain_of_alnum w hw, ?_, ?_⟩
        · rw [List.chain'_cons']
          refine ⟨?_, ih hws⟩
          intro y hy hy2
          rcases joinWords_head hws with hnil | ⟨c, l, hc, hcal⟩
          · exact hj hnil
          · rw [hc] at hy
            simp only [List.head?_cons, Option.mem_def, Option.some.injEq] at hy
            subst hy
            exact isAlnum_ne_underscore hcal hy2.2
        · intro x hx y _ hxy
          exact isAlnum_ne_underscore (hw x (List.mem_of_mem_getLast? hx)) hxy.1

theorem toSnakeCase_shape (t : CaseTables) (s : GoString) :
    (∀ b ∈ toSnakeCase t s, isLower b = true ∨ isDigit b = true ∨ b = 95) ∧
    (toSnakeCase t s).head? ≠ some 95 ∧
    (toSnakeCase t s).getLast? ≠ some 95 ∧
    List.Chain' (fun a b => ¬ (a = 95 ∧ b = 95)) (toSnakeCase t s) ∧
    ∃ ws : List GoString,
      (∀ w ∈ ws, w ≠ [] ∧ ∀ b ∈ w, isLower b = true ∨ isDigit b = true) ∧
      toSnakeCase t s = [95].intercalate ws := by
  refine ⟨?_, ?_, ?_, ?_, ?_⟩
  · intro b hb
    rcases toSnakeCase_mem t s b hb with h | h
    · simp only [isLowerDigit, Bool.or_eq_true] at h
      rcases h with h | h
      · exact Or.inl h
      · exact Or.inr (Or.inl h)
    · exact Or.inr (Or.inr h)
  · rw [toSnakeCase_eq_joinWords]
    rcases joinWords_head (lowerWords_alnum s) with h | ⟨c, l, h, hc⟩
    · rw [h]; simp
    · rw [h]
      simp only [List.head?_cons, ne_eq, Option.some.injEq]
      exact isAlnum_ne_underscore hc
  · rw [toSnakeCase_eq_joinWords]
    intro h
    exact isAlnum_ne_underscore (joinWords_getLast (lowerWords_alnum s) 95 h) rfl
  · rw [toSnakeCase_eq_joinWords]
    exact joinWords_chain (lowerWords_alnum s)
  · refine ⟨(lowerWords s).filter (fun w => w ≠ []), ?_, ?_⟩
    · intro w hw
      rw [List.mem_filter] at hw
      refine ⟨by simpa using hw.2, ?_⟩
      intro b hb
      have := lowerWords_lowerDigit s w hw.1 b hb
      simpa [isLowerDigit] using this
    · rw [toSnakeCase_eq_joinWords, joinWords_eq_intercalate]

/-! ## The delimiter split of `toPascalCase` -/

theorem splitDelimsAux_of_noDelim (cur : GoString) (f : Bool) (s : GoString)
    (h : ∀ b ∈ s, isDelim b = false) : splitDelimsAux cur f s = [cur.reverse ++ s] := by
  induction s generalizing cur f with
  | nil => simp [splitDelimsAux]
  | cons b rest ih =>
    have hb : isDelim b = false := h b (by simp)
    rw [splitDelimsAux]
    simp only [hb, Bool.false_eq_true, if_false]
    rw [ih _ _ (fun c hc => h c (by simp [hc]))]
    simp

theorem splitDelims_of_noDelim (s : GoString) (h : ∀ b ∈ s, isDelim b = false) :
    splitDelims s = [s] := by
  unfold splitDelims
  rw [splitDelimsAux_of_noDelim [] false s h]
  rfl

theorem splitDelimsAux_mem (cur : GoString) (f : Bool) (s : GoString) :
    ∀ w ∈ splitDelimsAux cur f s, ∀ b ∈ w, b ∈ cur ∨ (b ∈ s ∧ isDelim b = false) := by
  induction s generalizing cur f with
  | nil =>
    intro w hw b hb
    simp only [splitDelimsAux, List.mem_singleton] at hw
    subst hw
    exact Or.inl (List.mem_reverse.1 hb)
  | cons c rest ih =>
    intro w hw b hb
    rw [splitDelimsAux] at hw
    by_cases hc : isDelim c = true
    · simp only [hc, if_true] at hw
      have tailcase : w ∈ splitDelimsAux [] true rest → b ∈ cur ∨ (b ∈ c :: rest ∧ isDelim b = false) := by
        intro hw
        rcases ih [] true w hw b hb with h | h
        · simp at h
        · exact Or.inr ⟨by simp [h.1], h.2⟩
      split at hw
      · exact tailcase hw
      · rcases List.mem_cons.1 hw with rfl | hw
        · exact Or.inl (List.mem_reverse.1 hb)
        · exact tailcase hw
    · have hc2 : isDelim c = false := by simpa using hc
      simp only [hc2, Bool.false_eq_true, if_false] at hw
      rcases ih (c :: cur) false w hw b hb with h | h
      · rcases List.mem_cons.1 h with rfl | h
        · exact Or.inr ⟨by simp, hc2⟩
        · exact Or.inl h
      · exact Or.inr ⟨by simp [h.1], h.2⟩

theorem splitDelimsAux_flatten (cur : GoString) (f : Bool) (s : GoString)
    (hf : f = true → cur = []) :
    (splitDelimsAux cur f s).flatten = cur.reverse ++ s.filter (fun b => !isDelim b) := by
  induction s generalizing cur f with
  | nil => simp [splitDelimsAux]
  | cons b rest ih =>
    rw [splitDelimsAux]
    by_cases hb : isDelim b = true
    · simp only [hb, if_true]
      cases f
      · simp [ih, hb]
      · simp [ih, hb, hf rfl]
    · have hb2 : isDelim b = false := by simpa using hb
      simp [hb2, ih]

theorem splitDelims_flatten (s : GoString) :
    (splitDelims s).flatten = s.filter (fun b => !isDelim b) := by
  unfold splitDelims
  rw [splitDelimsAux_flatten [] false s (fun _ => rfl)]
  rfl

theorem splitDelims_mem (s : GoString) :
    ∀ w ∈ splitDelims s, ∀ b ∈ w, b ∈ s ∧ isDelim b = false := by
  intro w hw b hb
  rcases splitDelimsAux_mem [] false s w hw b hb with h | h
  · simp at h
  · exact h

/-! ## Capitalised words -/

theorem asciiUpper_lt {b : Nat} (h : b < 128) : asciiUpper b < 128 := by
  unfold asciiUpper; split <;> omega

theorem asciiLower_lt {b : Nat} (h : b < 128) : asciiLower b < 128 := by
  unfold asciiLower
  split
  · rename_i hu
    simp only [isUpper, Bool.and_eq_true, decide_eq_true_eq] at hu
    omega
  · exact h

theorem asciiUpper_idem (b : Nat) : asciiUpper (asciiUpper b) = asciiUpper b := by
  unfold asciiUpper
  by_cases h : isLower b = true
  · simp only [h, if_true]
    have : isLower (b - 32) = false := by
      simp only [isLower, Bool.and_eq_true, decide_eq_true_eq] at h
      simp only [isLower, Bool.and_eq_false_iff, decide_eq_false_iff_not]
      omega
    simp [this]
  · simp [h]

theorem asciiLower_idem (b : Nat) : asciiLower (asciiLower b) = asciiLower b := by
  unfold asciiLower
  by_cases h : isUpper b = true
  · simp only [h, if_true]
    have : isUpper (b + 32) = false := by
      simp only [isUpper, Bool.and_eq_true, decide_eq_true_eq] at h
      simp only [isUpper, Bool.and_eq_false_iff, decide_eq_false_iff_not]
      omega
    simp [this]
  · simp [h]

theorem asciiLower_asciiUpper (b : Nat) : asciiLower (asciiUpper b) = asciiLower b := by
  unfold asciiLower asciiUpper
  by_cases h : isLower b = true
  · have h1 : isUpper (b - 32) = true := by
      simp only [isLower, Bool.and_eq_true, decide_eq_true_eq] at h
      simp only [isUpper, Bool.and_eq_true, decide_eq_true_eq]
      omega
    have h2 : isUpper b = false := by
      simp only [isLower, Bool.and_eq_true, decide_eq_true_eq] at h
      simp only [isUpper, Bool.and_eq_false_iff, decide_eq_false_iff_not]
      omega
    simp only [h, h1, h2, if_true, Bool.false_eq_true, if_false]
    simp only [isLower, Bool.and_eq_true, decide_eq_true_eq] at h
    omega
  · simp [h]

theorem isDelim_asciiUpper {b : Nat} (h : isDelim b = false) : isDelim (asciiUpper b) = false := by
  unfold asciiUpper
  split
  · rename_i hl
    simp only [isLower, Bool.and_eq_true, decide_eq_true_eq] at hl
    simp only [isDelim, Bool.or_eq_false_iff, beq_eq_false_iff_ne, ne_eq]
    omega
  · exact h

theorem isDelim_asciiLower {b : Nat} (h : isDelim b = false) : isDelim (asciiLower b) = false := by
  unfold asciiLower
  split
  · rename_i hl
    simp only [isUpper, Bool.and_eq_true, decide_eq_true_eq] at hl
    simp only [isDelim, Bool.or_eq_false_iff, beq_eq_false_iff_ne, ne_eq]
    omega
  · exact h

theorem isUpper_false_iff_asciiLower (b : Nat) : isUpper b = false ↔ asciiLower b = b := by
  unfold asciiLower
  by_cases h : isUpper b = true
  · simp [h]
  · simp [h]

theorem capitalize_cons (t : CaseTables) (b : Nat) (r : GoString) :
    capitalize t (b :: r) = stringsToUpper t [b] ++ stringsToLower t r := by
  simp [capitalize]

theorem capitalize_ascii (t : CaseTables) (b : Nat) (r : GoString)
    (h : ∀ c ∈ b :: r, c < 128) :
    capitalize t (b :: r) = asciiUpper b :: r.map asciiLower := by
  rw [capitalize_cons, stringsToUpper_ascii t (s := [b]) (by simpa using h b (by simp)),
    stringsToLower_ascii t (fun c hc => h c (by simp [hc]))]
  rfl

theorem splitDelims_plain (s : GoString) (h : ∀ b ∈ s, b < 128) : PlainWords (splitDelims s) :=
  fun w hw b hb => ⟨h b (splitDelims_mem s w hw b hb).1, (splitDelims_mem s w hw b hb).2⟩

theorem capitalize_plain (t : CaseTables) (w : GoString)
    (h : ∀ b ∈ w, b < 128 ∧ isDelim b = false) :
    (∀ b ∈ capitalize t w, b < 128 ∧ isDelim b = false) ∧
    (capitalize t w).map asciiLower = w.map asciiLower ∧
    (capitalize t w = [] ∨ ∃ b l, capitalize t w = b :: l ∧ asciiUpper b = b) := by
  cases w with
  | nil => simp [capitalize]
  | cons c r =>
    rw [capitalize_ascii t c r (fun b hb => (h b hb).1)]
    refine ⟨?_, ?_, Or.inr ⟨_, _, rfl, asciiUpper_idem c⟩⟩
    · intro b hb
      rcases List.mem_cons.1 hb with rfl | hb
      · exact ⟨asciiUpper_lt (h c (by simp)).1, isDelim_asciiUpper (h c (by simp)).2⟩
      · obtain ⟨d, hd, rfl⟩ := List.mem_map.1 hb
        exact ⟨asciiLower_lt (h d (by simp [hd])).1, isDelim_asciiLower (h d (by simp [hd])).2⟩
    · simp [asciiLower_asciiUpper, asciiLower_idem]

theorem flatten_capitalize (t : CaseTables) (ws : List GoString) (h : PlainWords ws) :
    (∀ b ∈ (ws.map (capitalize t)).flatten, b < 128 ∧ isDelim b = false) ∧
    ((ws.map (capitalize t)).flatten).map asciiLower = ws.flatten.map asciiLower ∧
    ((ws.map (capitalize t)).flatten = [] ∨
      ∃ b l, (ws.map (capitalize t)).flatten = b :: l ∧ asciiUpper b = b) := by
  induction ws with
  | nil => simp
  | cons w ws ih =>
    have hw := capitalize_plain t w (h w (by simp))
    have hws := ih (fun v hv => h v (by simp [hv]))
    simp only [List.map_cons, List.flatten_cons, List.map_append]
    refine ⟨?_, ?_, ?_⟩
    · intro b hb
      rcases List.mem_append.1 hb with hb | hb
      · exact hw.1 b hb
      · exact hws.1 b hb
    · rw [hw.2.1, hws.2.1]
    · rcases hw.2.2 with hnil | ⟨b, l, hbl, hb⟩
      · rw [hnil, List.nil_append]; exact hws.2.2
      · exact Or.inr ⟨b, l ++ (ws.map (capitalize t)).flatten, by rw [hbl]; rfl, hb⟩

theorem toPascalCase_ascii (t : CaseTables) (s : GoString) (h : ∀ b ∈ s, b < 128) :
    (∀ b ∈ toPascalCase t s, b < 128 ∧ isDelim b = false) ∧
    (toPascalCase t s).map asciiLower = (s.filter (fun b => !isDelim b)).map asciiLower ∧
    (toPascalCase t s = [] ∨ ∃ b l, toPascalCase t s = b :: l ∧ asciiUpper b = b) := by
  have := flatten_capitalize t (splitDelims s) (splitDelims_plain s h)
  rw [splitDelims_flatten] at this
  exact this

theorem toPascalCase_of_noDelim (t : CaseTables) (s : GoString)
    (h : ∀ b ∈ s, isDelim b = false) : toPascalCase t s = capitalize t s := by
  unfold toPascalCase
  simp only
  rw [splitDelims_of_noDelim s h]
  simp [stringsJoin]

/-! ## Comparing the converters -/

theorem filter_joinWords {ws : List GoString} (h : AlnumWords ws) :
    (joinWords ws).filter (fun b => b ≠ 95) = ws.flatten := by
  induction ws with
  | nil => rfl
  | cons w ws ih =>
    have hws : AlnumWords ws := fun v hv => h v (by simp [hv])
    have hw : w.filter (fun b => b ≠ 95) = w := by
      rw [List.filter_eq_self]
      intro b hb
      simpa using isAlnum_ne_underscore (h w (by simp) b hb)
    rw [joinWords, List.flatten_cons, ← ih hws]
    by_cases hwn : w = []
    · simp [hwn]
    · rw [if_neg hwn]
      by_cases hj : joinWords ws = []
      · rw [if_pos hj, hj, hw]; simp
      · rw [if_neg hj, List.filter_append, hw]
        simp

theorem flatten_consHead (b : Nat) (ws : List GoString) :
    (consHead b ws).flatten = b :: ws.flatten := by
  cases ws <;> simp [consHead]

theorem specWords_flatten (s : GoString) : (specWords s).flatten = s.filter isAlnum := by
  induction s with
  | nil => rfl
  | cons b rest ih =>
    rw [specWords_cons]
    by_cases hb : isAlnum b = true
    · simp only [hb, Bool.not_true, Bool.false_eq_true, if_false]
      split
      · simp [ih, hb]
      · simp [flatten_consHead, ih, hb]
    · have hb2 : isAlnum b = false := by simpa using hb
      simp [hb2, ih]

theorem toSnakeCase_filter (t : CaseTables) (s : GoString) :
    (toSnakeCase t s).filter (fun b => b ≠ 95) = (s.filter isAlnum).map asciiLower := by
  rw [toSnakeCase_eq_joinWords, filter_joinWords (lowerWords_alnum s), lowerWords,
    ← specWords_flatten]
  simp [List.map_flatten]

theorem toCamelCase_of_cons (t : CaseTables) (s : GoString) (b : Nat) (l : GoString)
    (hp : toPascalCase t s = b :: l) (hb : b < 128) :
    toCamelCase t s = asciiLower b :: l := by
  unfold toCamelCase
  simp only [hp]
  rw [if_neg (by simp)]
  simp only [List.take_succ_cons, List.take_zero, List.drop_succ_cons, List.drop_zero]
  rw [stringsToLower_ascii t (s := [b]) (by simpa using hb)]
  rfl

theorem toCamelCase_of_nil (t : CaseTables) (s : GoString) (hp : toPascalCase t s = []) :
    toCamelCase t s = [] := by
  unfold toCamelCase
  simp [hp]

theorem toCamelCase_lower (t : CaseTables) (s : GoString) (h : ∀ b ∈ s, b < 128) :
    (∀ b ∈ toCamelCase t s, b < 128) ∧
    (toCamelCase t s).map asciiLower = (toPascalCase t s).map asciiLower := by
  have hp := (toPascalCase_ascii t s h).1
  cases hc : toPascalCase t s with
  | nil => rw [toCamelCase_of_nil t s hc]; simp
  | cons b l =>
    rw [hc] at hp
    rw [toCamelCase_of_cons t s b l hc (hp b (by simp)).1]
    constructor
    · intro c hc2
      rcases List.mem_cons.1 hc2 with rfl | hc2
      · exact asciiLower_lt (hp b (by simp)).1
      · exact (hp c (by simp [hc2])).1
    · simp [asciiLower_idem]

/-! ## Paths -/

theorem splitSlash_ne_nil (p : GoString) : splitSlash p ≠ [] := by
  cases p with
  | nil => simp [splitSlash]
  | cons c cs =>
    rw [splitSlash]
    split
    · simp
    · cases splitSlash cs <;> simp [consHead]

theorem consHead_append (c : Nat) {l : List GoString} (m : List GoString) (h : l ≠ []) :
    consHead c (l ++ m) = consHead c l ++ m := by
  cases l with
  | nil => exact absurd rfl h
  | cons w ws => rfl

theorem splitSlash_append (x y : GoString) :
    splitSlash (x ++ 47 :: y) = splitSlash x ++ splitSlash y := by
  induction x with
  | nil => simp [splitSlash]
  | cons c cs ih =>
    rw [List.cons_append, splitSlash, splitSlash, ih]
    split
    · rfl
    · exact consHead_append c _ (splitSlash_ne_nil cs)

theorem splitSlash_of_noSlash (f : GoString) (h : 47 ∉ f) : splitSlash f = [f] := by
  induction f with
  | nil => rfl
  | cons c cs ih =>
    have hc : c ≠ 47 := fun e => h (by simp [e])
    rw [splitSlash, if_neg hc, ih (fun e => h (by simp [e]))]
    rfl

theorem splitSlash_noSlash (p : GoString) : ∀ e ∈ splitSlash p, 47 ∉ e := by
  induction p with
  | nil => intro e he; simp [splitSlash] at he; subst he; simp
  | cons c cs ih =>
    intro e he
    rw [splitSlash] at he
    split at he
    · rcases List.mem_cons.1 he with rfl | he
      · simp
      · exact ih e he
    · rename_i hc
      cases hs : splitSlash cs with
      | nil => exact absurd hs (splitSlash_ne_nil cs)
      | cons w ws =>
        rw [hs] at he ih
        simp only [consHead, List.mem_cons] at he
        rcases he with rfl | he
        · intro hmem
          rcases List.mem_cons.1 hmem with h | h
          · exact hc h.symm
          · exact ih w (by simp) h
        · exact ih e (by simp [he])

theorem splitSlash_intercalate (l : List GoString) (hne : l ≠ []) (h : ∀ e ∈ l, 47 ∉ e) :
    splitSlash ([47].intercalate l) = l := by
  induction l with
  | nil => exact absurd rfl hne
  | cons a l ih =>
    cases l with
    | nil =>
      have : [47].intercalate [a] = a := by simp [List.intercalate]
      rw [this]
      exact splitSlash_of_noSlash a (h a (by simp))
    | cons b l =>
      have : [47].intercalate (a :: b :: l) = a ++ 47 :: [47].intercalate (b :: l) := by
        simp [List.intercalate]
      rw [this, splitSlash_append, splitSlash_of_noSlash a (h a (by simp)),
        ih (by simp) (fun e he => h e (by simp [he]))]
      rfl

theorem normStack_push {r : Bool} {st : List GoString} {f : GoString} (hf : SimpleName f)
    (h : NormStack r st) : NormStack r (f :: st) :=
  ⟨hf.1, hf.2.1, hf.2.2.2, fun e => absurd e hf.2.2.1, h⟩

theorem normStack_mem {r : Bool} {st : List GoString} (h : NormStack r st) :
    ∀ e ∈ st, e ≠ [] ∧ e ≠ [46] ∧ 47 ∉ e := by
  induction st with
  | nil => intro e he; simp at he
  | cons a st ih =>
    intro e he
    rcases List.mem_cons.1 he with rfl | he
    · exact ⟨h.1, h.2.1, h.2.2.1⟩
    · exact ih h.2.2.2.2 e he

theorem normStack_cleanStep {r : Bool} {st : List GoString} (e : GoString) (he : 47 ∉ e)
    (h : NormStack r st) : NormStack r (cleanStep r st e) := by
  unfold cleanStep
  split
  · exact h
  · rename_i h1
    have h1' : e ≠ [] ∧ e ≠ [46] := by
      constructor
      · intro x; exact h1 (Or.inl x)
      · intro x; exact h1 (Or.inr x)
    split
    · rename_i h2
      cases st with
      | nil =>
        cases r
        · exact ⟨h1'.1, h1'.2, he, fun _ => ⟨rfl, by simp⟩, trivial⟩
        · exact trivial
      | cons top below =>
        simp only
        split
        · rename_i h3
          refine ⟨h1'.1, h1'.2, he, fun _ => ?_, h⟩
          have := h.2.2.2.1 h3
          refine ⟨this.1, ?_⟩
          intro x hx
          rcases List.mem_cons.1 hx with rfl | hx
          · exact h3
          · exact this.2 x hx
        · exact h.2.2.2.2
    · rename_i h2
      exact ⟨h1'.1, h1'.2, he, fun x => absurd x h2, h⟩

theorem normStack_foldl {r : Bool} (es : List GoString) (hes : ∀ e ∈ es, 47 ∉ e)
    (st : List GoString) (h : NormStack r st) : NormStack r (es.foldl (cleanStep r) st) := by
  induction es generalizing st with
  | nil => exact h
  | cons e es ih =>
    rw [List.foldl_cons]
    exact ih (fun x hx => hes x (by simp [hx])) _
      (normStack_cleanStep e (hes e (by simp)) h)

theorem foldl_cleanStep_reverse {r : Bool} {st : List GoString} (h : NormStack r st) :
    st.reverse.foldl (cleanStep r) [] = st := by
  induction st with
  | nil => rfl
  | cons e below ih =>
    rw [List.reverse_cons, List.foldl_append, ih h.2.2.2.2]
    simp only [List.foldl_cons, List.foldl_nil]
    unfold cleanStep
    rw [if_neg (by intro x; rcases x with x | x; exact h.1 x; exact h.2.1 x)]
    by_cases h2 : e = [46, 46]
    · rw [if_pos h2]
      have h3 := h.2.2.2.1 h2
      cases below with
      | nil => simp [h3.1]
      | cons top rest =>
        simp only
        rw [if_pos (h3.2 top (by simp))]
    · rw [if_neg h2]

theorem intercalate_head {l : List GoString} (hne : l ≠ [])
    (h : ∀ e ∈ l, e ≠ [] ∧ e ≠ [46] ∧ 47 ∉ e) :
    ∃ c rest, [47].intercalate l = c :: rest ∧ c ≠ 47 := by
  cases l with
  | nil => exact absurd rfl hne
  | cons a l =>
    have ha := h a (by simp)
    cases a with
    | nil => exact absurd rfl ha.1
    | cons c cs =>
      have hc : c ≠ 47 := fun e => ha.2.2 (by simp [e])
      cases l with
      | nil => exact ⟨c, cs, by simp [List.intercalate], hc⟩
      | cons b l => exact ⟨c, cs ++ 47 :: [47].intercalate (b :: l), by simp [List.intercalate], hc⟩

theorem renderPath_ne_nil (r : Bool) (st : List GoString)
    (h : ∀ e ∈ st, e ≠ [] ∧ e ≠ [46] ∧ 47 ∉ e) : renderPath r st ≠ [] := by
  unfold renderPath
  cases r
  · by_cases hst : st = []
    · simp [hst]
    · simp only [Bool.false_eq_true, if_false, if_neg hst]
      obtain ⟨c, rest, hc, _⟩ := intercalate_head (l := st.reverse) (by simpa using hst)
        (fun e he => h e (List.mem_reverse.1 he))
      rw [hc]; simp
  · simp

theorem renderPath_head (r : Bool) (st : List GoString)
    (h : ∀ e ∈ st, e ≠ [] ∧ e ≠ [46] ∧ 47 ∉ e) :
    decide ((renderPath r st).head? = some 47) = r := by
  unfold renderPath
  cases r
  · by_cases hst : st = []
    · simp [hst]
    · simp only [Bool.false_eq_true, if_false, if_neg hst]
      obtain ⟨c, rest, hc, hc2⟩ := intercalate_head (l := st.reverse) (by simpa using hst)
        (fun e he => h e (List.mem_reverse.1 he))
      rw [hc]; simpa using hc2
  · simp

theorem cleanStep_skip_nil (r : Bool) (st : List GoString) : cleanStep r st [] = st := by
  simp [cleanStep]

theorem cleanStep_skip_dot (r : Bool) (st : List GoString) : cleanStep r st [46] = st := by
  simp [cleanStep]

theorem foldl_splitSlash_renderPath {r : Bool} {st : List GoString} (h : NormStack r st) :
    (splitSlash (renderPath r st)).foldl (cleanStep r) [] = st := by
  have hm := normStack_mem h
  have hrev : ∀ e ∈ st.reverse, 47 ∉ e := fun e he => (hm e (List.mem_reverse.1 he)).2.2
  unfold renderPath
  cases r
  · by_cases hst : st = []
    · subst hst
      simp [splitSlash, consHead, cleanStep]
    · simp only [Bool.false_eq_true, if_false, if_neg hst]
      rw [splitSlash_intercalate _ (by simpa using hst) hrev]
      exact foldl_cleanStep_reverse h
  · simp only [if_true]
    rw [splitSlash, if_pos rfl, List.foldl_cons, cleanStep_skip_nil]
    by_cases hst : st = []
    · subst hst
      simp [List.intercalate, splitSlash, cleanStep]
    · rw [splitSlash_intercalate _ (by simpa using hst) hrev]
      exact foldl_cleanStep_reverse h

theorem filepathClean_form (z : GoString) :
    ∃ r st, NormStack r st ∧ filepathClean z = renderPath r st := by
  unfold filepathClean
  by_cases hz : z = []
  · exact ⟨false, [], trivial, by simp [hz, renderPath]⟩
  · rw [if_neg hz]
    exact ⟨_, _, normStack_foldl _ (splitSlash_noSlash z) [] trivial, rfl⟩

theorem foldl_cleanStep_simple (r : Bool) (es : List GoString) (hes : ∀ e ∈ es, SimpleName e)
    (st : List GoString) : es.foldl (cleanStep r) st = es.reverse ++ st := by
  induction es generalizing st with
  | nil => rfl
  | cons e es ih =>
    have he := hes e (by simp)
    rw [List.foldl_cons, ih (fun x hx => hes x (by simp [hx]))]
    have : cleanStep r st e = e :: st := by
      unfold cleanStep
      rw [if_neg (by intro x; rcases x with x | x; exact he.1 x; exact he.2.1 x), if_neg he.2.2.1]
    rw [this]
    simp

/-- Joining simple names to a cleaned path puts them on its stack. -/
theorem filepathClean_append {r : Bool} {st : List GoString} (h : NormStack r st)
    (es : List GoString) (hne : es ≠ []) (hes : ∀ e ∈ es, SimpleName e) :
    filepathClean (renderPath r st ++ 47 :: [47].intercalate es) =
      renderPath r (es.reverse ++ st) := by
  have hm := normStack_mem h
  have hd := renderPath_ne_nil r st hm
  unfold filepathClean
  rw [if_neg (by simp [hd])]
  have hhead : decide ((renderPath r st ++ 47 :: [47].intercalate es).head? = some 47) = r := by
    have e1 : (renderPath r st ++ 47 :: [47].intercalate es).head? = (renderPath r st).head? := by
      cases hrp : renderPath r st with
      | nil => exact absurd hrp hd
      | cons c cs => rfl
    rw [e1]
    exact renderPath_head r st hm
  simp only [hhead]
  rw [splitSlash_append, List.foldl_append, foldl_splitSlash_renderPath h,
    splitSlash_intercalate es hne (fun e he => (hes e he).2.2.2),
    foldl_cleanStep_simple r es hes]

theorem pathElems_renderPath {r : Bool} {st : List GoString} (h : NormStack r st) :
    pathElems (renderPath r st) = st.reverse := by
  have hm := normStack_mem h
  have hrev : ∀ e ∈ st.reverse, 47 ∉ e := fun e he => (hm e (List.mem_reverse.1 he)).2.2
  have hfil : st.reverse.filter (fun e => decide (e ≠ [] ∧ e ≠ [46])) = st.reverse := by
    rw [List.filter_eq_self]
    intro e he
    have := hm e (List.mem_reverse.1 he)
    simp [this.1, this.2.1]
  unfold pathElems renderPath
  cases r
  · by_cases hst : st = []
    · subst hst
      simp [splitSlash, consHead]
    · simp only [Bool.false_eq_true, if_false, if_neg hst]
      rw [splitSlash_intercalate _ (by simpa using hst) hrev, hfil]
  · simp only [if_true]
    rw [splitSlash, if_pos rfl]
    by_cases hst : st = []
    · subst hst
      simp [List.intercalate, splitSlash]
    · rw [splitSlash_intercalate _ (by simpa using hst) hrev]
      rw [List.filter_cons_of_neg (by simp), hfil]

theorem renderPath_inj {r : Bool} {st1 st2 : List GoString} (h1 : NormStack r st1)
    (h2 : NormStack r st2) (h : renderPath r st1 = renderPath r st2) : st1 = st2 := by
  have := congrArg pathElems h
  rw [pathElems_renderPath h1, pathElems_renderPath h2] at this
  exact List.reverse_injective this

/-! ## One call of `generateFile` -/

theorem osStat_failed_iff (w : World) (p : GoString) :
    osStat w p = StatResult.failed ↔ w.refuseStat p = true := by
  unfold osStat
  cases hr : w.refuseStat p
  · cases hf : w.files p with
    | none => cases hd : w.dirs p <;> simp
    | some c => simp
  · simp

theorem osStat_notExist_iff (w : World) (p : GoString) :
    osStat w p = StatResult.notExist ↔
      w.refuseStat p = false ∧ w.files p = none ∧ w.dirs p = false := by
  unfold osStat
  cases hr : w.refuseStat p
  · cases hf : w.files p with
    | none => cases hd : w.dirs p <;> simp
    | some c => simp
  · simp

theorem osStat_dir_iff (w : World) (p : GoString) :
    osStat w p = StatResult.dir ↔
      w.refuseStat p = false ∧ w.files p = none ∧ w.dirs p = true := by
  unfold osStat
  cases hr : w.refuseStat p
  · cases hf : w.files p with
    | none => cases hd : w.dirs p <;> simp
    | some c => simp
  · simp

theorem osStat_file_iff (w : World) (p : GoString) :
    osStat w p = StatResult.file ↔ w.refuseStat p = false ∧ ∃ c, w.files p = some c := by
  unfold osStat
  cases hr : w.refuseStat p
  · cases hf : w.files p with
    | none => cases hd : w.dirs p <;> simp
    | some c => simp
  · simp

theorem SameFiles.refl (w : World) (ds : List GoString) : SameFiles w w ds :=
  ⟨rfl, fun _ hq => hq, fun _ hq => Or.inl hq, rfl, rfl, rfl, rfl, rfl, Or.inl rfl⟩

theorem writeOutput_returns (env : Env) (w : World) (c name target out : GoString)
    (hparse : env.parse c = true) (hexec : env.execute c name = some out)
    (hfresh : osStat w target = StatResult.notExist) (hwrite : w.refuseWrite target = false) :
    ∃ w1, writeOutput env c name target w = Outcome.returned w1 ∧
      w1.files = (fun q => if q = target then some out else w.files q) ∧
      w1.dirs = w.dirs ∧ w1.refuseStat = w.refuseStat ∧ w1.refuseRead = w.refuseRead ∧
      w1.refuseMkdir = w.refuseMkdir ∧ w1.refuseWrite = w.refuseWrite ∧
      w1.written = w.written ++ [(target, out)] := by
  have hd := ((osStat_notExist_iff w target).1 hfresh).2.2
  unfold writeOutput
  rw [if_neg (by rw [hfresh]; simp)]
  simp only [hparse, Bool.true_eq_false, if_false, hexec, osWriteFile, hd, hwrite, Bool.or_self,
    Bool.false_eq_true]
  exact ⟨_, rfl, rfl, rfl, rfl, rfl, rfl, rfl, rfl⟩

theorem osMkdirAll_some (w : World) (p : GoString) (h : CanCreateDir w p) :
    ∃ w1, osMkdirAll w p = some w1 ∧ SameFiles w w1 [p] ∧ w1.stdout = w.stdout := by
  unfold osMkdirAll
  rw [h.1, h.2]
  refine ⟨_, rfl, ⟨rfl, ?_, ?_, rfl, rfl, rfl, rfl, rfl, Or.inl rfl⟩, rfl⟩
  · intro q hq; simp [hq]
  · intro q hq
    simp only [Bool.or_eq_true, decide_eq_true_eq] at hq
    rcases hq with hq | hq
    · exact Or.inr (by simp [hq])
    · exact Or.inl hq

theorem osMkdirAll_none (w : World) (p : GoString) (h : ¬ CanCreateDir w p) :
    osMkdirAll w p = none := by
  unfold osMkdirAll
  rw [if_pos]
  unfold CanCreateDir at h
  cases hf : w.files p with
  | some c => simp
  | none =>
    cases hr : w.refuseMkdir p with
    | true => simp
    | false => exact absurd ⟨hf, hr⟩ h

theorem ensureDir_returns (w : World) (dir : GoString)
    (h : dir = [46] ∨ CanCreateDir w dir) :
    ∃ w1, ensureDir dir w = Outcome.returned w1 ∧ SameFiles w w1 [dir] ∧
      w1.stdout = w.stdout := by
  unfold ensureDir
  by_cases hd : dir ≠ [46] ∧ dir ≠ []
  · rw [if_pos hd]
    rcases h with h | h
    · exact absurd h hd.1
    · obtain ⟨w1, h1, h2, h3⟩ := osMkdirAll_some w dir h
      rw [h1]
      exact ⟨w1, rfl, h2, h3⟩
  · rw [if_neg hd]
    exact ⟨w, rfl, SameFiles.refl w _, rfl⟩

theorem createBlocDir_returns (w : World) (p : GoString) (h : CanCreateDir w p) :
    ∃ w1, createBlocDir p w = Outcome.returned w1 ∧ SameFiles w w1 [p] ∧
      w1.stdout = w.stdout ++ [Message.creatingBlocDirectory] := by
  obtain ⟨w1, h1, h2, h3⟩ := osMkdirAll_some (w.print Message.creatingBlocDirectory) p h
  unfold createBlocDir
  simp only [h1]
  exact ⟨w1, rfl, ⟨h2.files, h2.dirs_mono, h2.dirs_new, h2.refuseStat, h2.refuseRead,
    h2.refuseMkdir, h2.refuseWrite, h2.written, Or.inr h3⟩, h3⟩

theorem createBlocDir_exited (w : World) (p : GoString) (h : ¬ CanCreateDir w p) :
    createBlocDir p w = Outcome.exited 1
      ((w.print Message.creatingBlocDirectory).print Message.errorCreatingBlocDirectory) := by
  have := osMkdirAll_none (w.print Message.creatingBlocDirectory) p h
  unfold createBlocDir
  simp only [this]

theorem ensureBlocDir_returns (ft : FileTypes) (fullType dir : GoString) (w : World)
    (h : fullType = ft.Page ∨ osStat w (filepathJoin [dir, ascii "bloc"]) = StatResult.dir ∨
      CanCreateDir w (filepathJoin [dir, ascii "bloc"]))
    (hs : fullType = ft.Page ∨
      osStat w (filepathJoin [dir, ascii "bloc"]) ≠ StatResult.failed) :
    ∃ w1, ensureBlocDir ft fullType dir w = Outcome.returned w1 ∧
      SameFiles w w1 [filepathJoin [dir, ascii "bloc"]] := by
  unfold ensureBlocDir
  by_cases hp : fullType = ft.Page
  · rw [if_neg (by simpa using hp)]
    exact ⟨w, rfl, SameFiles.refl w _⟩
  · rw [if_pos hp]
    have hc : osStat w (filepathJoin [dir, ascii "bloc"]) ≠ StatResult.dir →
        CanCreateDir w (filepathJoin [dir, ascii "bloc"]) := by
      intro hnd
      rcases h with h | h | h
      · exact absurd h hp
      · exact absurd h hnd
      · exact h
    simp only
    cases hst : osStat w (filepathJoin [dir, ascii "bloc"]) with
    | notExist =>
      obtain ⟨w1, h1, h2, _⟩ := createBlocDir_returns w _ (hc (by rw [hst]; simp))
      exact ⟨w1, h1, h2⟩
    | file =>
      obtain ⟨w1, h1, h2, _⟩ := createBlocDir_returns w _ (hc (by rw [hst]; simp))
      exact ⟨w1, h1, h2⟩
    | dir => exact ⟨w, rfl, SameFiles.refl w _⟩
    | failed =>
      rcases hs with hs | hs
      · exact absurd hs hp
      · exact absurd hst hs

theorem SameFiles.osStat_failed {w w1 : World} {ds : List GoString} (sf : SameFiles w w1 ds)
    (q : GoString) : osStat w1 q = StatResult.failed ↔ osStat w q = StatResult.failed := by
  rw [osStat_failed_iff, osStat_failed_iff, sf.refuseStat]

theorem SameFiles.osStat_dir {w w1 : World} {ds : List GoString} (sf : SameFiles w w1 ds)
    {q : GoString} (h : osStat w q = StatResult.dir) : osStat w1 q = StatResult.dir := by
  rw [osStat_dir_iff] at h ⊢
  exact ⟨by rw [sf.refuseStat]; exact h.1, by rw [sf.files]; exact h.2.1, sf.dirs_mono q h.2.2⟩

theorem SameFiles.canCreateDir_iff {w w1 : World} {ds : List GoString} (sf : SameFiles w w1 ds)
    (q : GoString) : CanCreateDir w1 q ↔ CanCreateDir w q := by
  unfold CanCreateDir
  rw [sf.files, sf.refuseMkdir]

theorem generateFile_returns (env : Env) (ft : FileTypes) (fullType path out : GoString)
    (w : World)
    (htmpl : TemplateReady env w fullType (filepathBase path) out)
    (hdir : filepathDir path = [46] ∨ CanCreateDir w (filepathDir path))
    (hbloc : fullType = ft.Page ∨ osStat w (blocDirOf path) = StatResult.dir ∨
      CanCreateDir w (blocDirOf path))
    (hstat : fullType = ft.Page ∨ osStat w (blocDirOf path) ≠ StatResult.failed)
    (hfresh : osStat w (outputPathOf env ft fullType path) = StatResult.notExist)
    (hwrite : w.refuseWrite (outputPathOf env ft fullType path) = false)
    (hne1 : outputPathOf env ft fullType path ≠ filepathDir path)
    (hne2 : outputPathOf env ft fullType path ≠ blocDirOf path) :
    ∃ w1, generateFile env ft fullType path w = Outcome.returned w1 ∧
      Generated w w1 path (outputPathOf env ft fullType path) out := by
  obtain ⟨c, hc, hr, hp, he⟩ := htmpl
  obtain ⟨wa, ha, sa, _⟩ := ensureDir_returns w (filepathDir path) hdir
  have hbloc2 : fullType = ft.Page ∨ osStat wa (blocDirOf path) = StatResult.dir ∨
      CanCreateDir wa (blocDirOf path) := by
    rcases hbloc with h | h | h
    · exact Or.inl h
    · exact Or.inr (Or.inl (sa.osStat_dir h))
    · exact Or.inr (Or.inr ((sa.canCreateDir_iff _).2 h))
  have hstat2 : fullType = ft.Page ∨ osStat wa (blocDirOf path) ≠ StatResult.failed := by
    rcases hstat with h | h
    · exact Or.inl h
    · exact Or.inr (fun e => h ((sa.osStat_failed _).1 e))
  obtain ⟨wb, hb, sb⟩ := ensureBlocDir_returns ft fullType (filepathDir path) wa hbloc2 hstat2
  have hfresh0 := (osStat_notExist_iff w _).1 hfresh
  have hfresh2 : osStat wb (outputPathOf env ft fullType path) = StatResult.notExist := by
    rw [osStat_notExist_iff]
    refine ⟨by rw [sb.refuseStat, sa.refuseStat]; exact hfresh0.1,
      by rw [sb.files, sa.files]; exact hfresh0.2.1, ?_⟩
    cases hd : wb.dirs (outputPathOf env ft fullType path)
    · rfl
    · exfalso
      rcases sb.dirs_new _ hd with h | h
      · rcases sa.dirs_new _ h with h | h
        · rw [hfresh0.2.2] at h; exact absurd h (by decide)
        · exact hne1 (by simpa using h)
      · exact hne2 (by simpa [blocDirOf] using h)
  have hwrite2 : wb.refuseWrite (outputPathOf env ft fullType path) = false := by
    rw [sb.refuseWrite, sa.refuseWrite]; exact hwrite
  obtain ⟨wc, hw, f1, f2, f3, f4, f5, f6, f7⟩ :=
    writeOutput_returns env wb c (filepathBase path) _ out hp he hfresh2 hwrite2
  refine ⟨wc, ?_, ?_⟩
  · unfold generateFile
    have hstat : osStat w (filepathJoin [ascii "templates", fullType ++ ascii ".tmpl"])
        ≠ StatResult.notExist := by
      intro h
      have := ((osStat_notExist_iff w _).1 h).2.1
      rw [templatePathOf] at hc
      rw [hc] at this
      exact absurd this (by simp)
    have hread : osReadFile w (filepathJoin [ascii "templates", fullType ++ ascii ".tmpl"])
        = some c := by
      unfold osReadFile
      rw [templatePathOf] at hc hr
      rw [hr, hc]
      rfl
    simp only [if_neg hstat, hread, ha, Outcome.andThen, hb]
    exact hw
  · refine ⟨by rw [f1, sb.files, sa.files], ?_, ?_, by rw [f3, sb.refuseStat, sa.refuseStat],
      by rw [f4, sb.refuseRead, sa.refuseRead], by rw [f5, sb.refuseMkdir, sa.refuseMkdir],
      by rw [f6, sb.refuseWrite, sa.refuseWrite], by rw [f7, sb.written, sa.written]⟩
    · intro q hq
      rw [f2]
      exact sb.dirs_mono q (sa.dirs_mono q hq)
    · intro q hq
      rw [f2] at hq
      rcases sb.dirs_new q hq with h | h
      · rcases sa.dirs_new q h with h | h
        · exact Or.inl h
        · exact Or.inr (Or.inl (by simpa using h))
      · exact Or.inr (Or.inr (by simpa [blocDirOf] using h))

/-! ## The paths of the generated files -/

theorem simpleName_bloc : SimpleName (ascii "bloc") := by
  refine ⟨by decide, by decide, by decide, by decide⟩

theorem simpleName_snake (t : CaseTables) (name suffix : GoString) (hlen : 3 ≤ suffix.length)
    (hs : 47 ∉ suffix) : SimpleName (toSnakeCase t name ++ suffix) := by
  have hl : 3 ≤ (toSnakeCase t name ++ suffix).length := by
    rw [List.length_append]; omega
  refine ⟨?_, ?_, ?_, ?_⟩
  · intro h; rw [h] at hl; simp at hl
  · intro h; rw [h] at hl; simp at hl
  · intro h; rw [h] at hl; simp at hl
  · intro h
    rcases List.mem_append.1 h with h | h
    · rcases toSnakeCase_mem t name 47 h with h | h
      · exact absurd h (by decide)
      · exact absurd h (by decide)
    · exact hs h

theorem filepathJoin_pair (d x : GoString) (hd : d ≠ []) :
    filepathJoin [d, x] = filepathClean (d ++ 47 :: x) := by
  cases d with
  | nil => exact absurd rfl hd
  | cons c cs => simp [filepathJoin, List.dropWhile, List.intercalate]

/-- The paths `generateFile` computes from the directory of `path`: with the
stack of the cleaned directory, a name joined to it is one more element. -/
theorem filepathJoin_dir (path : GoString) :
    ∃ r st, NormStack r st ∧ filepathDir path = renderPath r st ∧
      blocDirOf path = renderPath r (ascii "bloc" :: st) ∧
      ∀ f, SimpleName f →
        filepathJoin [filepathDir path, f] = renderPath r (f :: st) ∧
        filepathJoin [filepathDir path, ascii "bloc/" ++ f] =
          renderPath r (f :: ascii "bloc" :: st) := by
  obtain ⟨r, st, hn, hd⟩ := filepathClean_form (path.rdropWhile (fun c => c != 47))
  have hdir : filepathDir path = renderPath r st := hd
  have hne : renderPath r st ≠ [] := renderPath_ne_nil r st (normStack_mem hn)
  refine ⟨r, st, hn, hdir, ?_, ?_⟩
  · rw [blocDirOf, hdir, filepathJoin_pair _ _ hne]
    have := filepathClean_append hn [ascii "bloc"] (by simp)
      (fun e he => by rw [List.mem_singleton.1 he]; exact simpleName_bloc)
    simpa [List.intercalate] using this
  · intro f hf
    rw [hdir, filepathJoin_pair _ _ hne, filepathJoin_pair _ _ hne]
    constructor
    · have := filepathClean_append hn [f] (by simp)
        (fun e he => by rw [List.mem_singleton.1 he]; exact hf)
      simpa [List.intercalate] using this
    · have := filepathClean_append hn [ascii "bloc", f] (by simp)
        (fun e he => by
          rcases List.mem_cons.1 he with h | h
          · rw [h]; exact simpleName_bloc
          · rw [List.mem_singleton.1 h]; exact hf)
      have e2 : [47].intercalate [ascii "bloc", f] = ascii "bloc/" ++ f := by
        simp [List.intercalate, ascii]
      rw [e2] at this
      simpa using this

theorem intercalate_concat (l : List GoString) (f : GoString) (h : l ≠ []) :
    [47].intercalate (l ++ [f]) = [47].intercalate l ++ 47 :: f := by
  induction l with
  | nil => exact absurd rfl h
  | cons a l ih =>
    cases l with
    | nil => simp [List.intercalate]
    | cons b l =>
      have e1 : [47].intercalate (a :: (b :: l ++ [f])) =
          a ++ 47 :: [47].intercalate (b :: l ++ [f]) := by
        simp [List.intercalate]
      have e2 : [47].intercalate (a :: b :: l) = a ++ 47 :: [47].intercalate (b :: l) := by
        simp [List.intercalate]
      rw [List.cons_append, e1, ih (by simp), e2]
      simp

theorem renderPath_push (r : Bool) (st : List GoString) (f : GoString) (h : st ≠ []) :
    renderPath r (f :: st) = renderPath r st ++ 47 :: f := by
  have hr : st.reverse ≠ [] := by simpa using h
  unfold renderPath
  rw [List.reverse_cons, intercalate_concat _ _ hr]
  cases r
  · simp [h]
  · simp

/-- Where the directory of the path is neither `.` nor the root, the path of
a generated file is the directory, a slash, and the file name. -/
theorem filepathJoin_dir_eq (path f : GoString) (hf : SimpleName f)
    (h1 : filepathDir path ≠ [46]) (h2 : filepathDir path ≠ [47]) :
    filepathJoin [filepathDir path, f] = filepathDir path ++ 47 :: f ∧
    filepathJoin [filepathDir path, ascii "bloc/" ++ f] =
      filepathDir path ++ 47 :: (ascii "bloc/" ++ f) := by
  obtain ⟨r, st, hn, hd, _, hj⟩ := filepathJoin_dir path
  have hst : st ≠ [] := by
    intro e
    subst e
    cases r
    · exact h1 (by rw [hd]; rfl)
    · exact h2 (by rw [hd]; rfl)
  rw [(hj f hf).1, (hj f hf).2, renderPath_push r (ascii "bloc" :: st) f (by simp),
    renderPath_push r st f hst, renderPath_push r st (ascii "bloc") hst, hd]
  constructor
  · rfl
  · have : ascii "bloc/" = ascii "bloc" ++ [47] := by decide
    rw [this]
    simp

theorem outputPathOf_page (env : Env) (ft : FileTypes) (path : GoString) :
    outputPathOf env ft ft.Page path = pageFile env path := by
  simp [outputPathOf, generatedFilename, pageFile, snakeName]

theorem outputPathOf_blocPage (env : Env) (ft : FileTypes) (path : GoString) :
    outputPathOf env ft ft.BloCPage path = pageFile env path := by
  unfold outputPathOf generatedFilename pageFile snakeName
  split <;> simp

theorem outputPathOf_bloc (env : Env) (ft : FileTypes) (path : GoString) (h : ft.Distinct) :
    outputPathOf env ft ft.BLoC path = blocFile env path := by
  unfold outputPathOf generatedFilename blocFile snakeName
  rw [if_neg h.1.1, if_neg h.1.2, if_pos rfl]

theorem outputPathOf_event (env : Env) (ft : FileTypes) (path : GoString) (h : ft.Distinct) :
    outputPathOf env ft ft.Event path = eventFile env path := by
  unfold outputPathOf generatedFilename eventFile snakeName
  rw [if_neg h.2.1.1, if_neg h.2.1.2.1, if_neg h.2.1.2.2, if_pos rfl]

theorem outputPathOf_state (env : Env) (ft : FileTypes) (path : GoString) (h : ft.Distinct) :
    outputPathOf env ft ft.State path = stateFile env path := by
  unfold outputPathOf generatedFilename stateFile snakeName
  rw [if_neg h.2.2.1, if_neg h.2.2.2.1, if_neg h.2.2.2.2.1, if_neg h.2.2.2.2.2, if_pos rfl]

theorem renderPath_ne {r : Bool} {st1 st2 : List GoString} (h1 : NormStack r st1)
    (h2 : NormStack r st2) (h : st1 ≠ st2) : renderPath r st1 ≠ renderPath r st2 :=
  fun e => h (renderPath_inj h1 h2 e)

theorem cons_ne_self {α : Type} (a : α) (l : List α) : a :: l ≠ l := by
  intro h
  have := congrArg List.length h
  simp at this

theorem cons_cons_ne_self {α : Type} (a b : α) (l : List α) : a :: b :: l ≠ l := by
  intro h
  have := congrArg List.length h
  simp only [List.length_cons] at this
  omega

theorem snake_suffix_ne (sn a b : GoString) (h : a ≠ b) : sn ++ a ≠ sn ++ b :=
  fun e => h (List.append_cancel_left e)

/-- The four output files are different paths, and none of them is the
directory of the path or the bloc directory. -/
theorem outputs_distinct (env : Env) (path : GoString) :
    (pageFile env path ≠ filepathDir path ∧ pageFile env path ≠ blocDirOf path) ∧
    (blocFile env path ≠ filepathDir path ∧ blocFile env path ≠ blocDirOf path ∧
      blocFile env path ≠ pageFile env path) ∧
    (eventFile env path ≠ filepathDir path ∧ eventFile env path ≠ blocDirOf path ∧
      eventFile env path ≠ pageFile env path ∧ eventFile env path ≠ blocFile env path) ∧
    (stateFile env path ≠ filepathDir path ∧ stateFile env path ≠ blocDirOf path ∧
      stateFile env path ≠ pageFile env path ∧ stateFile env path ≠ blocFile env path ∧
      stateFile env path ≠ eventFile env path) := by
  obtain ⟨r, st, hn, hd, hb, hj⟩ := filepathJoin_dir path
  have sp := simpleName_snake env.tables (filepathBase path) (ascii "_page.dart")
    (by decide) (by decide)
  have sb := simpleName_snake env.tables (filepathBase path) (ascii "_bloc.dart")
    (by decide) (by decide)
  have se := simpleName_snake env.tables (filepathBase path) (ascii "_event.dart")
    (by decide) (by decide)
  have ss := simpleName_snake env.tables (filepathBase path) (ascii "_state.dart")
    (by decide) (by decide)
  have ep : pageFile env path = renderPath r (_ :: st) := (hj _ sp).1
  have eb : blocFile env path = renderPath r
      ((toSnakeCase env.tables (filepathBase path) ++ ascii "_bloc.dart") :: ascii "bloc" :: st) := by
    rw [← (hj _ sb).2, blocFile, snakeName, List.append_assoc]
  have ee : eventFile env path = renderPath r
      ((toSnakeCase env.tables (filepathBase path) ++ ascii "_event.dart") :: ascii "bloc" :: st) := by
    rw [← (hj _ se).2, eventFile, snakeName, List.append_assoc]
  have es : stateFile env path = renderPath r
      ((toSnakeCase env.tables (filepathBase path) ++ ascii "_state.dart") :: ascii "bloc" :: st) := by
    rw [← (hj _ ss).2, stateFile, snakeName, List.append_assoc]
  have nb := normStack_push simpleName_bloc hn
  have n1 := normStack_push sp hn
  have n2 := normStack_push sb nb
  have n3 := normStack_push se nb
  have n4 := normStack_push ss nb
  have hpb : toSnakeCase env.tables (filepathBase path) ++ ascii "_page.dart" ≠ ascii "bloc" := by
    intro h
    have := congrArg List.length h
    rw [List.length_append] at this
    have h1 : (ascii "_page.dart").length = 10 := by decide
    have h2 : (ascii "bloc").length = 4 := by decide
    omega
  rw [ep, eb, ee, es, hd, hb]
  refine ⟨⟨?_, ?_⟩, ⟨?_, ?_, ?_⟩, ⟨?_, ?_, ?_, ?_⟩, ⟨?_, ?_, ?_, ?_, ?_⟩⟩
  · exact renderPath_ne n1 hn (cons_ne_self _ _)
  · exact renderPath_ne n1 nb (fun h => hpb (List.cons.inj h).1)
  · exact renderPath_ne n2 hn (cons_cons_ne_self _ _ _)
  · exact renderPath_ne n2 nb (cons_ne_self _ _)
  · exact renderPath_ne n2 n1 (fun h => cons_ne_self _ _ (List.cons.inj h).2)
  · exact renderPath_ne n3 hn (cons_cons_ne_self _ _ _)
  · exact renderPath_ne n3 nb (cons_ne_self _ _)
  · exact renderPath_ne n3 n1 (fun h => cons_ne_self _ _ (List.cons.inj h).2)
  · exact renderPath_ne n3 n2
      (fun h => snake_suffix_ne _ _ _ (by decide) (List.cons.inj h).1)
  · exact renderPath_ne n4 hn (cons_cons_ne_self _ _ _)
  · exact renderPath_ne n4 nb (cons_ne_self _ _)
  · exact renderPath_ne n4 n1 (fun h => cons_ne_self _ _ (List.cons.inj h).2)
  · exact renderPath_ne n4 n2
      (fun h => snake_suffix_ne _ _ _ (by decide) (List.cons.inj h).1)
  · exact renderPath_ne n4 n3
      (fun h => snake_suffix_ne _ _ _ (by decide) (List.cons.inj h).1)

theorem blocDirOf_ne_dir (path : GoString) : blocDirOf path ≠ filepathDir path := by
  obtain ⟨r, st, hn, hd, hb, _⟩ := filepathJoin_dir path
  rw [hd, hb]
  exact renderPath_ne (normStack_push simpleName_bloc hn) hn (cons_ne_self _ _)

theorem filepathDir_ne_nil (path : GoString) : filepathDir path ≠ [] := by
  obtain ⟨r, st, hn, hd, _, _⟩ := filepathJoin_dir path
  rw [hd]
  exact renderPath_ne_nil r st (normStack_mem hn)

/-! ## From one call to the next -/

theorem Generated.files_of_ne {w w1 : World} {path t o : GoString} (g : Generated w w1 path t o)
    {q : GoString} (h : q ≠ t) : w1.files q = w.files q := by
  rw [g.files]
  simp [h]

theorem Generated.template {w w1 : World} {path t o : GoString} (g : Generated w w1 path t o)
    {env : Env} {fullType name out : GoString} (h : TemplateReady env w fullType name out)
    (ht : osStat w t = StatResult.notExist) : TemplateReady env w1 fullType name out := by
  obtain ⟨c, hc, hr, hp, he⟩ := h
  have hne : templatePathOf fullType ≠ t := by
    intro e
    rw [e, ((osStat_notExist_iff w t).1 ht).2.1] at hc
    exact absurd hc (by simp)
  exact ⟨c, by rw [g.files_of_ne hne]; exact hc, by rw [g.refuseRead]; exact hr, hp, he⟩

theorem Generated.canCreateDir {w w1 : World} {path t o : GoString}
    (g : Generated w w1 path t o) {q : GoString} (h : CanCreateDir w q) (hne : q ≠ t) :
    CanCreateDir w1 q :=
  ⟨by rw [g.files_of_ne hne]; exact h.1, by rw [g.refuseMkdir]; exact h.2⟩

theorem Generated.dirReady {w w1 : World} {path t o : GoString}
    (g : Generated w w1 path t o) {q : GoString} (h : q = [46] ∨ CanCreateDir w q)
    (hne : q ≠ t) : q = [46] ∨ CanCreateDir w1 q := by
  rcases h with h | h
  · exact Or.inl h
  · exact Or.inr (g.canCreateDir h hne)

theorem Generated.blocReady {w w1 : World} {path t o : GoString}
    (g : Generated w w1 path t o) {q : GoString}
    (h : osStat w q = StatResult.dir ∨ CanCreateDir w q) (hne : q ≠ t) :
    osStat w1 q = StatResult.dir ∨ CanCreateDir w1 q := by
  rcases h with h | h
  · left
    rw [osStat_dir_iff] at h ⊢
    exact ⟨by rw [g.refuseStat]; exact h.1, by rw [g.files_of_ne hne]; exact h.2.1,
      g.dirs_mono q h.2.2⟩
  · exact Or.inr (g.canCreateDir h hne)

theorem Generated.statOk {w w1 : World} {path t o : GoString}
    (g : Generated w w1 path t o) {q : GoString} (h : osStat w q ≠ StatResult.failed) :
    osStat w1 q ≠ StatResult.failed := by
  intro e
  apply h
  rw [osStat_failed_iff] at e ⊢
  rw [← g.refuseStat]
  exact e

theorem Generated.canWriteNew {w w1 : World} {path t o : GoString}
    (g : Generated w w1 path t o) {q : GoString} (h : CanWriteNew w q) (hne : q ≠ t)
    (hd : q ≠ filepathDir path) (hb : q ≠ blocDirOf path) : CanWriteNew w1 q := by
  have h0 := (osStat_notExist_iff w q).1 h.1
  refine ⟨?_, by rw [g.refuseWrite]; exact h.2⟩
  rw [osStat_notExist_iff]
  refine ⟨by rw [g.refuseStat]; exact h0.1, by rw [g.files_of_ne hne]; exact h0.2.1, ?_⟩
  cases hq : w1.dirs q
  · rfl
  · exfalso
    rcases g.dirs_new q hq with h1 | h1 | h1
    · rw [h0.2.2] at h1; exact absurd h1 (by decide)
    · exact hd h1
    · exact hb h1

/-- The four calls of the page branch of `generateBoilerplate` go through and
write the four files in turn. -/
theorem generateFile_four (env : Env) (ft : FileTypes) (w : World) (path : GoString)
    (o1 o2 o3 o4 : GoString) (hft : ft.Distinct)
    (ht1 : TemplateReady env w ft.BloCPage (filepathBase path) o1)
    (ht2 : TemplateReady env w ft.BLoC (filepathBase path) o2)
    (ht3 : TemplateReady env w ft.Event (filepathBase path) o3)
    (ht4 : TemplateReady env w ft.State (filepathBase path) o4)
    (hdir : filepathDir path = [46] ∨ CanCreateDir w (filepathDir path))
    (hbloc : osStat w (blocDirOf path) = StatResult.dir ∨ CanCreateDir w (blocDirOf path))
    (hstat : osStat w (blocDirOf path) ≠ StatResult.failed)
    (hw1 : CanWriteNew w (pageFile env path)) (hw2 : CanWriteNew w (blocFile env path))
    (hw3 : CanWriteNew w (eventFile env path)) (hw4 : CanWriteNew w (stateFile env path)) :
    ∃ w4, ((generateFile env ft ft.BloCPage path w).andThen fun w1 =>
        (generateFile env ft ft.BLoC path w1).andThen fun w2 =>
        (generateFile env ft ft.Event path w2).andThen fun w3 =>
        generateFile env ft ft.State path w3) = Outcome.returned w4 ∧
      w4.written = w.written ++ [(pageFile env path, o1), (blocFile env path, o2),
        (eventFile env path, o3), (stateFile env path, o4)] := by
  obtain ⟨⟨p1, p2⟩, ⟨b1, b2, b3⟩, ⟨e1, e2, e3, e4⟩, ⟨s1, s2, s3, s4, s5⟩⟩ :=
    outputs_distinct env path
  have q1 := outputPathOf_blocPage env ft path
  have q2 := outputPathOf_bloc env ft path hft
  have q3 := outputPathOf_event env ft path hft
  have q4 := outputPathOf_state env ft path hft
  -- first call
  obtain ⟨w1, r1, g1⟩ := generateFile_returns env ft ft.BloCPage path o1 w ht1 hdir
    (Or.inr hbloc) (Or.inr hstat) (by rw [q1]; exact hw1.1) (by rw [q1]; exact hw1.2)
    (by rw [q1]; exact p1) (by rw [q1]; exact p2)
  rw [q1] at g1
  -- second call
  obtain ⟨w2, r2, g2⟩ := generateFile_returns env ft ft.BLoC path o2 w1
    (g1.template ht2 hw1.1) (g1.dirReady hdir (Ne.symm p1))
    (Or.inr (g1.blocReady hbloc (Ne.symm p2))) (Or.inr (g1.statOk hstat))
    (by rw [q2]; exact (g1.canWriteNew hw2 b3 b1 b2).1)
    (by rw [q2]; exact (g1.canWriteNew hw2 b3 b1 b2).2)
    (by rw [q2]; exact b1) (by rw [q2]; exact b2)
  rw [q2] at g2
  have hw2a := g1.canWriteNew hw2 b3 b1 b2
  -- third call
  have hw3a := g2.canWriteNew (g1.canWriteNew hw3 e3 e1 e2) e4 e1 e2
  obtain ⟨w3, r3, g3⟩ := generateFile_returns env ft ft.Event path o3 w2
    (g2.template (g1.template ht3 hw1.1) hw2a.1)
    (g2.dirReady (g1.dirReady hdir (Ne.symm p1)) (Ne.symm b1))
    (Or.inr (g2.blocReady (g1.blocReady hbloc (Ne.symm p2)) (Ne.symm b2)))
    (Or.inr (g2.statOk (g1.statOk hstat)))
    (by rw [q3]; exact hw3a.1) (by rw [q3]; exact hw3a.2)
    (by rw [q3]; exact e1) (by rw [q3]; exact e2)
  rw [q3] at g3
  -- fourth call
  have hw4a := g3.canWriteNew (g2.canWriteNew (g1.canWriteNew hw4 s3 s1 s2) s4 s1 s2) s5 s1 s2
  obtain ⟨w4, r4, g4⟩ := generateFile_returns env ft ft.State path o4 w3
    (g3.template (g2.template (g1.template ht4 hw1.1) hw2a.1) hw3a.1)
    (g3.dirReady (g2.dirReady (g1.dirReady hdir (Ne.symm p1)) (Ne.symm b1)) (Ne.symm e1))
    (Or.inr (g3.blocReady (g2.blocReady (g1.blocReady hbloc (Ne.symm p2)) (Ne.symm b2))
      (Ne.symm e2)))
    (Or.inr (g3.statOk (g2.statOk (g1.statOk hstat))))
    (by rw [q4]; exact hw4a.1) (by rw [q4]; exact hw4a.2)
    (by rw [q4]; exact s1) (by rw [q4]; exact s2)
  rw [q4] at g4
  refine ⟨w4, ?_, ?_⟩
  · simp only [r1, Outcome.andThen, r2, r3, r4]
  · rw [g4.written, g3.written, g2.written, g1.written]
    simp

/-! ## An output file that exists -/

theorem ensureDir_exited (w : World) (dir : GoString) (hne : dir ≠ [])
    (h : ¬ (dir = [46] ∨ CanCreateDir w dir)) :
    ensureDir dir w = Outcome.exited 1 (w.print Message.errorCreatingDirectory) := by
  simp only [not_or] at h
  unfold ensureDir
  rw [if_pos ⟨h.1, hne⟩, osMkdirAll_none w dir h.2]

theorem ensureBlocDir_exited (ft : FileTypes) (fullType dir : GoString) (w : World)
    (hp : fullType ≠ ft.Page)
    (hs : osStat w (filepathJoin [dir, ascii "bloc"]) ≠ StatResult.failed)
    (hd : osStat w (filepathJoin [dir, ascii "bloc"]) ≠ StatResult.dir)
    (hc : ¬ CanCreateDir w (filepathJoin [dir, ascii "bloc"])) :
    ensureBlocDir ft fullType dir w = Outcome.exited 1
      ((w.print Message.creatingBlocDirectory).print Message.errorCreatingBlocDirectory) := by
  unfold ensureBlocDir
  rw [if_pos hp]
  simp only
  cases hst : osStat w (filepathJoin [dir, ascii "bloc"]) with
  | notExist => exact createBlocDir_exited w _ hc
  | file => exact createBlocDir_exited w _ hc
  | dir => exact absurd hst hd
  | failed => exact absurd hst hs

theorem ensureBlocDir_panicked (ft : FileTypes) (fullType dir : GoString) (w : World)
    (hp : fullType ≠ ft.Page)
    (hs : osStat w (filepathJoin [dir, ascii "bloc"]) = StatResult.failed) :
    ensureBlocDir ft fullType dir w = Outcome.panicked w := by
  unfold ensureBlocDir
  rw [if_pos hp]
  simp only [hs]

theorem writeOutput_exists (env : Env) (w : World) (c name target : GoString)
    (h : osStat w target = StatResult.file ∨ osStat w target = StatResult.dir) :
    writeOutput env c name target w =
      Outcome.exited 1 (w.print (Message.fileAlreadyExists target)) := by
  unfold writeOutput
  rw [if_pos h]

theorem SameFiles.osStat_found {w w1 : World} {ds : List GoString} (sf : SameFiles w w1 ds)
    {q : GoString} (h : osStat w q = StatResult.file ∨ osStat w q = StatResult.dir) :
    osStat w1 q = StatResult.file ∨ osStat w1 q = StatResult.dir := by
  rcases h with h | h
  · left
    rw [osStat_file_iff] at h ⊢
    exact ⟨by rw [sf.refuseStat]; exact h.1, by rw [sf.files]; exact h.2⟩
  · exact Or.inr (sf.osStat_dir h)

theorem existsResult_of_error (ft : FileTypes) (w w1 : World) (fullType path out : GoString)
    (lines : List Message) (m : Message)
    (hf : w1.files = w.files) (hw : w1.written = w.written)
    (hs : w1.stdout = w.stdout ++ lines) (hl : lines.getLast? = some m)
    (hm : m ≠ Message.fileAlreadyExists out)
    (hc : ¬ ReachesOutputCheck ft w fullType path) :
    ExistsResult ft w fullType path out (Outcome.exited 1 w1) := by
  refine ⟨hf, hw, fun _ => ⟨rfl, lines, hs, ?_⟩⟩
  rw [hl]
  constructor
  · intro e
    exact absurd (Option.some.inj e) hm
  · intro e
    exact absurd e hc

theorem generateFile_of_exists (env : Env) (ft : FileTypes) (fullType path : GoString)
    (w : World)
    (h : osStat w (outputPathOf env ft fullType path) = StatResult.file ∨
      osStat w (outputPathOf env ft fullType path) = StatResult.dir) :
    ExistsResult ft w fullType path (outputPathOf env ft fullType path)
      (generateFile env ft fullType path w) := by
  unfold generateFile
  simp only
  by_cases hst : osStat w (filepathJoin [ascii "templates", fullType ++ ascii ".tmpl"])
      = StatResult.notExist
  · rw [if_pos hst]
    refine existsResult_of_error ft w _ fullType path _
      [Message.templateNotFound (filepathJoin [ascii "templates", fullType ++ ascii ".tmpl"]),
        Message.ensureInstallation] Message.ensureInstallation
      rfl rfl (by simp [World.print]) rfl (by simp) ?_
    intro ⟨⟨c, hc⟩, _⟩
    unfold osReadFile templatePathOf at hc
    split at hc
    · exact absurd hc (by simp)
    · rw [((osStat_notExist_iff w _).1 hst).2.1] at hc
      exact absurd hc (by simp)
  · rw [if_neg hst]
    cases hread : osReadFile w (filepathJoin [ascii "templates", fullType ++ ascii ".tmpl"]) with
    | none =>
      refine existsResult_of_error ft w _ fullType path _
        [Message.errorReadingTemplate] Message.errorReadingTemplate
        rfl rfl (by simp [World.print]) rfl (by simp) ?_
      intro ⟨⟨c, hc⟩, _⟩
      unfold templatePathOf at hc
      rw [hread] at hc
      exact absurd hc (by simp)
    | some c =>
      simp only
      by_cases hdir : filepathDir path = [46] ∨ CanCreateDir w (filepathDir path)
      · obtain ⟨wa, ha, sa, hsa⟩ := ensureDir_returns w (filepathDir path) hdir
        rw [ha]
        simp only [Outcome.andThen]
        have hdne : wa.dirs (blocDirOf path) = true → w.dirs (blocDirOf path) = true := by
          intro hd
          rcases sa.dirs_new _ hd with h1 | h1
          · exact h1
          · exact absurd (by simpa using h1) (blocDirOf_ne_dir path)
        by_cases hp : fullType = ft.Page
        · obtain ⟨wb, hb, sb⟩ := ensureBlocDir_returns ft fullType (filepathDir path) wa
            (Or.inl hp) (Or.inl hp)
          have hbs : wb.stdout = wa.stdout := by
            unfold ensureBlocDir at hb
            rw [if_neg (by simpa using hp)] at hb
            rw [← Outcome.returned.inj hb]
          rw [hb]
          simp only
          have := writeOutput_exists env wb c (filepathBase path) _
            (sb.osStat_found (sa.osStat_found h))
          unfold outputPathOf at this
          rw [this]
          refine ⟨by show wb.files = w.files; rw [sb.files, sa.files],
            by show wb.written = w.written; rw [sb.written, sa.written], fun _ => ⟨rfl,
              [Message.fileAlreadyExists (outputPathOf env ft fullType path)], ?_, ?_⟩⟩
          · show wb.stdout ++ _ = _
            rw [hbs, hsa]
            rfl
          · constructor
            · intro _
              exact ⟨⟨c, hread⟩, hdir, Or.inl hp⟩
            · intro _
              rfl
        · by_cases hfail : osStat w (blocDirOf path) = StatResult.failed
          · have := ensureBlocDir_panicked ft fullType (filepathDir path) wa hp
              ((sa.osStat_failed _).2 hfail)
            rw [this]
            refine ⟨by show wa.files = w.files; exact sa.files,
              by show wa.written = w.written; exact sa.written, ?_⟩
            intro hs
            rcases hs with hs | hs
            · exact absurd hs hp
            · exact absurd hfail hs
          · by_cases hbloc : osStat w (blocDirOf path) = StatResult.dir ∨
                CanCreateDir w (blocDirOf path)
            · have hbloc2 : fullType = ft.Page ∨
                  osStat wa (blocDirOf path) = StatResult.dir ∨
                  CanCreateDir wa (blocDirOf path) := by
                rcases hbloc with h1 | h1
                · exact Or.inr (Or.inl (sa.osStat_dir h1))
                · exact Or.inr (Or.inr ((sa.canCreateDir_iff _).2 h1))
              obtain ⟨wb, hb, sb⟩ := ensureBlocDir_returns ft fullType (filepathDir path) wa
                hbloc2 (Or.inr (fun e => hfail ((sa.osStat_failed _).1 e)))
              rw [hb]
              simp only
              have := writeOutput_exists env wb c (filepathBase path) _
                (sb.osStat_found (sa.osStat_found h))
              unfold outputPathOf at this
              rw [this]
              refine ⟨by show wb.files = w.files; rw [sb.files, sa.files],
                by show wb.written = w.written; rw [sb.written, sa.written], fun _ => ⟨rfl, ?_⟩⟩
              rcases sb.stdout with e | e
              · refine ⟨[Message.fileAlreadyExists (outputPathOf env ft fullType path)], ?_, ?_⟩
                · show wb.stdout ++ _ = _
                  rw [e, hsa]
                  rfl
                · exact ⟨fun _ => ⟨⟨c, hread⟩, hdir, Or.inr hbloc⟩, fun _ => rfl⟩
              · refine ⟨[Message.creatingBlocDirectory,
                  Message.fileAlreadyExists (outputPathOf env ft fullType path)], ?_, ?_⟩
                · show wb.stdout ++ _ = _
                  rw [e, hsa]
                  simp [outputPathOf]
                · exact ⟨fun _ => ⟨⟨c, hread⟩, hdir, Or.inr hbloc⟩, fun _ => rfl⟩
            · simp only [not_or] at hbloc
              have hnd : osStat wa (blocDirOf path) ≠ StatResult.dir := by
                intro e
                rw [osStat_dir_iff] at e
                apply hbloc.1
                rw [osStat_dir_iff]
                exact ⟨by rw [← sa.refuseStat]; exact e.1, by rw [← sa.files]; exact e.2.1,
                  hdne e.2.2⟩
              have := ensureBlocDir_exited ft fullType (filepathDir path) wa hp
                (fun e => hfail ((sa.osStat_failed _).1 e)) hnd
                (fun e => hbloc.2 ((sa.canCreateDir_iff _).1 e))
              rw [this]
              refine existsResult_of_error ft w _ fullType path _
                [Message.creatingBlocDirectory, Message.errorCreatingBlocDirectory]
                Message.errorCreatingBlocDirectory
                (by show wa.files = w.files; exact sa.files)
                (by show wa.written = w.written; exact sa.written)
                (by show (wa.stdout ++ _) ++ _ = _; rw [hsa]; simp) rfl (by simp) ?_
              intro ⟨_, _, hb⟩
              rcases hb with hb | hb | hb
              · exact hp hb
              · exact hbloc.1 hb
              · exact hbloc.2 hb
      · rw [ensureDir_exited w (filepathDir path) (filepathDir_ne_nil path) hdir]
        refine existsResult_of_error ft w _ fullType path _
          [Message.errorCreatingDirectory] Message.errorCreatingDirectory
          rfl rfl (by simp [World.print]) rfl (by simp) ?_
        intro ⟨_, hd, _⟩
        exact hdir hd

theorem isUpper_asciiLower (b : Nat) : isUpper (asciiLower b) = false := by
  unfold asciiLower
  by_cases h : isUpper b = true
  · rw [if_pos h]
    simp only [isUpper, Bool.and_eq_true, decide_eq_true_eq] at h
    simp only [isUpper, Bool.and_eq_false_iff, decide_eq_false_iff_not]
    omega
  · rw [if_neg h]
    simpa using h

theorem isDelim_lt {b : Nat} (h : isDelim b = true) : b < 128 := by
  simp only [isDelim, Bool.or_eq_true, beq_iff_eq] at h
  omega

theorem isDelim_false_of_isAlnum {b : Nat} (h : isAlnum b = true) : isDelim b = false := by
  simp only [isAlnum, isLower, isUpper, isDigit, Bool.or_eq_true, Bool.and_eq_true,
    decide_eq_true_eq] at h
  simp only [isDelim, Bool.or_eq_false_iff, beq_eq_false_iff_ne, ne_eq]
  omega

theorem map_asciiLower_eq_self (l : GoString) :
    l.map asciiLower = l ↔ ∀ b ∈ l, isUpper b = false := by
  induction l with
  | nil => simp
  | cons c cs ih =>
    simp only [List.map_cons, List.cons.injEq, ih, List.mem_cons, forall_eq_or_imp,
      isUpper_false_iff_asciiLower]

/-- On an ASCII string, `toPascalCase` applied to its own output leaves the
first byte and lowercases the rest. -/
theorem toPascalCase_toPascalCase (t : CaseTables) (s : GoString) (h : ∀ b ∈ s, b < 128) :
    toPascalCase t (toPascalCase t s) =
      (toPascalCase t s).take 1 ++ ((toPascalCase t s).drop 1).map asciiLower := by
  obtain ⟨h1, _, h3⟩ := toPascalCase_ascii t s h
  rw [toPascalCase_of_noDelim t _ (fun b hb => (h1 b hb).2)]
  rcases h3 with h3 | ⟨b, l, h3, hb⟩
  · rw [h3]; rfl
  · rw [h3] at h1
    rw [h3, capitalize_ascii t b l (fun c hc => (h1 c hc).1), hb]
    rfl

/-- The letters and digits of an ASCII string, lowercased, are what the three
converters have in common. -/
theorem lower_toPascalCase (t : CaseTables) (s : GoString) (h : ∀ b ∈ s, b < 128) :
    stringsToLower t (toPascalCase t s) = (s.filter (fun b => !isDelim b)).map asciiLower ∧
    stringsToLower t (toCamelCase t s) = stringsToLower t (toPascalCase t s) := by
  obtain ⟨h1, h2, _⟩ := toPascalCase_ascii t s h
  obtain ⟨c1, c2⟩ := toCamelCase_lower t s h
  rw [stringsToLower_ascii t (fun b hb => (h1 b hb).1), stringsToLower_ascii t c1, h2, c2, h2]
  exact ⟨rfl, rfl⟩

/-! ## The claims -/

/-- C1: `toSnakeCase` computes the reference tokenisation of the
specification: the words between the bytes that are no ASCII letters or
digits, cut also between `[a-z0-9]` and a following `[A-Z]`, the empty words
discarded, each word lowercased, joined by single underscores.  The result is
empty exactly when the string has no ASCII letter or digit.  The four
examples of the test file are instances. -/
theorem toSnakeCase_eq_specSnakeCase (t : CaseTables) (s : GoString) :
    toSnakeCase t s = specSnakeCase s ∧
    (toSnakeCase t s = [] ↔ ∀ b ∈ s, isAlnum b = false) ∧
    toSnakeCase t (ascii "CamelCase") = ascii "camel_case" ∧
    toSnakeCase t (ascii "mixedCaseExample") = ascii "mixed_case_example" ∧
    toSnakeCase t (ascii "string with spaces") = ascii "string_with_spaces" ∧
    toSnakeCase t (ascii "special@char#string!") = ascii "special_char_string" := by
  refine ⟨toSnakeCase_eq_spec t s, toSnakeCase_eq_nil_iff t s, ?_, ?_, ?_, ?_⟩ <;>
    (rw [toSnakeCase_eq_spec]; decide)

/-- C2: `toSnakeCase` is idempotent, `toSnakeCase(toSnakeCase(s)) =
toSnakeCase(s)`; every string that is already snake case, a join by single
underscores of non-empty words of `[a-z0-9]`, is returned unchanged, and so is
`already_snake_case`. -/
theorem toSnakeCase_idempotent (t : CaseTables) (s : GoString) :
    toSnakeCase t (toSnakeCase t s) = toSnakeCase t s ∧
    (∀ ws : List GoString,
      (∀ w ∈ ws, w ≠ [] ∧ ∀ b ∈ w, isLower b = true ∨ isDigit b = true) →
      toSnakeCase t ([95].intercalate ws) = [95].intercalate ws) ∧
    toSnakeCase t (ascii "already_snake_case") = ascii "already_snake_case" := by
  refine ⟨toSnakeCase_idem t s, toSnakeCase_of_snake_form t, ?_⟩
  rw [toSnakeCase_eq_spec]
  decide

/-- C3: for every string, also an empty, a non-ASCII or an all-punctuation
one, the result of `toSnakeCase` has only lowercase ASCII letters, digits and
underscores, neither starts nor ends with an underscore, has no two
underscores in a row, and is the join by single underscores of non-empty words
of `[a-z0-9]`. -/
theorem toSnakeCase_snake_form (t : CaseTables) (s : GoString) :
    (∀ b ∈ toSnakeCase t s, isLower b = true ∨ isDigit b = true ∨ b = 95) ∧
    (toSnakeCase t s).head? ≠ some 95 ∧
    (toSnakeCase t s).getLast? ≠ some 95 ∧
    List.Chain' (fun a b => ¬ (a = 95 ∧ b = 95)) (toSnakeCase t s) ∧
    ∃ ws : List GoString,
      (∀ w ∈ ws, w ≠ [] ∧ ∀ b ∈ w, isLower b = true ∨ isDigit b = true) ∧
      toSnakeCase t s = [95].intercalate ws :=
  toSnakeCase_shape t s

/-- On a non-empty string without underscore, hyphen and whitespace,
`toPascalCase` makes no split: the result is `strings.ToUpper` of the first
byte `s[:1]` followed by `strings.ToLower` of the other bytes `s[1:]`. -/
theorem toPascalCase_single_word (t : CaseTables) (s : GoString) (hne : s ≠ [])
    (hd : ∀ b ∈ s, isDelim b = false) :
    toPascalCase t s = stringsToUpper t (s.take 1) ++ stringsToLower t (s.drop 1) := by
  rw [toPascalCase_of_noDelim t s hd]
  cases s with
  | nil => exact absurd rfl hne
  | cons b r => exact capitalize_cons t b r

/-- On an ASCII string without delimiters the first character is uppercased
and the other characters are lowercased. -/
theorem toPascalCase_single_word_ascii (t : CaseTables) (b : Nat) (r : GoString)
    (hd : ∀ c ∈ b :: r, isDelim c = false) (ha : ∀ c ∈ b :: r, c < 128) :
    toPascalCase t (b :: r) = asciiUpper b :: r.map asciiLower := by
  rw [toPascalCase_of_noDelim t _ hd, capitalize_ascii t b r ha]

/-- The example `mixedCaseExample`. -/
theorem toPascalCase_mixedCaseExample :
    toPascalCase noCaseTables (ascii "mixedCaseExample") = ascii "Mixedcaseexample" :=
  (toPascalCase_single_word noCaseTables (ascii "mixedCaseExample") (by decide)
    (by decide)).trans (by decide)

theorem encodeRune_length (r : Nat) : (encodeRune r).length ≤ 4 := by
  unfold encodeRune
  split
  · simp
  · split
    · simp
    · split
      · simp
      · split <;> simp

/-- C4, the code at the failing input `éa` (bytes c3 a9 61), a non-empty
string without underscore, hyphen and whitespace: `toPascalCase` uppercases
the byte `s[:1]`, which is half of the first character, and returns
U+FFFD U+FFFD `a`; this is not the first character `é` uppercased followed by
the rest `a` lowercased, whatever the case tables say. -/
theorem toPascalCase_first_byte (t : CaseTables) :
    toPascalCase t [195, 169, 97] = [239, 191, 189, 239, 191, 189, 97] ∧
    toPascalCase t [195, 169, 97] ≠ stringsToUpper t [195, 169] ++ stringsToLower t [97] := by
  have h1 : toPascalCase t [195, 169, 97] = [239, 191, 189, 239, 191, 189, 97] := by
    simp [toPascalCase, splitDelims, splitDelimsAux, isDelim, capitalize, stringsJoin,
      stringsToUpper, stringsToLower, stringsMap, stringsMapAux, decodeRune, inRange, runeError,
      unicodeToUpper, unicodeToLower, t.upper_runeError, t.lower_runeError, encodeRune,
      asciiLower, isUpper]
  refine ⟨h1, ?_⟩
  rw [h1]
  intro e
  have hu : stringsToUpper t [195, 169] = encodeRune (unicodeToUpper t 233) := by
    simp [stringsToUpper, stringsMap, stringsMapAux, decodeRune, inRange]
  have hl : stringsToLower t [97] = [97] := by
    simp [stringsToLower, asciiLower, isUpper]
  rw [hu, hl] at e
  have := congrArg List.length e
  have hlen := encodeRune_length (unicodeToUpper t 233)
  simp only [List.length_cons, List.length_nil, List.length_append] at this
  omega

/-- C5, counterexample: `_` is a non-empty string whose camel-case form is
empty, so that it has no first character. -/
theorem toCamelCase_underscore :
    ascii "_" ≠ [] ∧ toCamelCase noCaseTables (ascii "_") = [] ∧
    (toCamelCase noCaseTables (ascii "_")).head? = none := by
  decide

theorem toPascalCase_of_delims (t : CaseTables) (s : GoString)
    (h : ∀ b ∈ s, isDelim b = true) : toPascalCase t s = [] := by
  have hw : ∀ w ∈ splitDelims s, w = [] := by
    intro w hw
    cases w with
    | nil => rfl
    | cons b r =>
      have hb := splitDelims_mem s _ hw b (by simp)
      rw [h b hb.1] at hb
      exact absurd hb.2 (by decide)
  unfold toPascalCase stringsJoin
  simp only
  rw [List.flatten_eq_nil_iff]
  intro l hl
  obtain ⟨w, hw1, rfl⟩ := List.mem_map.1 hl
  rw [hw w hw1]
  rfl

/-- C5 as amended: when the Pascal-case form of `s` is not empty and starts
with an ASCII byte `b`, the camel-case form starts with the lowercase form of
`b`, which is no uppercase letter, and goes on like the Pascal-case form:
`toCamelCase(s)[1:] == toPascalCase(s)[1:]`.  When `s` is made of underscores,
hyphens and whitespace only, the Pascal-case and the camel-case form are
empty. -/
theorem toCamelCase_first_lower (t : CaseTables) (s : GoString) :
    (∀ b l, toPascalCase t s = b :: l → b < 128 →
      (toCamelCase t s).head? = some (asciiLower b) ∧
      isUpper (asciiLower b) = false ∧
      (toCamelCase t s).drop 1 = (toPascalCase t s).drop 1) ∧
    ((∀ b ∈ s, isDelim b = true) → toPascalCase t s = [] ∧ toCamelCase t s = []) := by
  constructor
  · intro b l hp hb
    rw [toCamelCase_of_cons t s b l hp hb, hp]
    exact ⟨rfl, isUpper_asciiLower b, rfl⟩
  · intro h
    have hp := toPascalCase_of_delims t s h
    exact ⟨hp, toCamelCase_of_nil t s hp⟩

/-- C5 as amended, at `home_page`, where `HomePage` becomes `homePage`, and at
the string of an underscore, a hyphen and a space. -/
theorem toCamelCase_first_lower_witness :
    (toPascalCase noCaseTables (ascii "home_page") = ascii "HomePage" ∧
      (toCamelCase noCaseTables (ascii "home_page")).head? = some 104 ∧
      (toCamelCase noCaseTables (ascii "home_page")).drop 1 = ascii "omePage") ∧
    toCamelCase noCaseTables (ascii "_- ") = [] := by
  have h := (toCamelCase_first_lower noCaseTables (ascii "home_page")).1 72 (ascii "omePage")
    (by decide) (by decide)
  exact ⟨⟨by decide, h.1, h.2.2.trans (by decide)⟩,
    ((toCamelCase_first_lower noCaseTables (ascii "_- ")).2 (by decide)).2⟩

/-- C6, counterexample: `a_b` becomes `AB`, and `AB` becomes `Ab`. -/
theorem toPascalCase_not_idempotent :
    toPascalCase noCaseTables (ascii "a_b") = ascii "AB" ∧
    toPascalCase noCaseTables (toPascalCase noCaseTables (ascii "a_b")) = ascii "Ab" ∧
    toPascalCase noCaseTables (toPascalCase noCaseTables (ascii "a_b")) ≠
      toPascalCase noCaseTables (ascii "a_b") := by
  decide

/-- C6 as amended: for an ASCII string `s`, `toPascalCase` gives back its own
output `toPascalCase(s)` exactly when that has no uppercase letter after its
first character; it does whenever `s` has no underscore, hyphen or
whitespace. -/
theorem toPascalCase_idempotent_iff (t : CaseTables) (s : GoString) (h : ∀ b ∈ s, b < 128) :
    (toPascalCase t (toPascalCase t s) = toPascalCase t s ↔
      ∀ b ∈ (toPascalCase t s).drop 1, isUpper b = false) ∧
    ((∀ b ∈ s, isDelim b = false) →
      toPascalCase t (toPascalCase t s) = toPascalCase t s) := by
  have key : toPascalCase t (toPascalCase t s) = toPascalCase t s ↔
      ∀ b ∈ (toPascalCase t s).drop 1, isUpper b = false := by
    rw [toPascalCase_toPascalCase t s h, ← map_asciiLower_eq_self]
    constructor
    · intro e
      have e2 := List.take_append_drop 1 (toPascalCase t s)
      rw [← e2] at e
      simp only [List.drop_append_eq_append_drop, List.take_append_drop] at e
      conv at e => rhs; rw [← List.take_append_drop 1 (toPascalCase t s)]
      exact List.append_cancel_left e
    · intro e
      rw [e, List.take_append_drop]
  refine ⟨key, ?_⟩
  intro hd
  rw [key]
  intro b hb
  rw [toPascalCase_of_noDelim t s hd] at hb
  cases s with
  | nil => simp [capitalize] at hb
  | cons c r =>
    rw [capitalize_ascii t c r h] at hb
    simp only [List.drop_succ_cons, List.drop_zero, List.mem_map] at hb
    obtain ⟨x, _, rfl⟩ := hb
    exact isUpper_asciiLower x

/-- C6 as amended, at `home`. -/
theorem toPascalCase_idempotent_iff_witness :
    toPascalCase noCaseTables (toPascalCase noCaseTables (ascii "home")) =
      toPascalCase noCaseTables (ascii "home") :=
  (toPascalCase_idempotent_iff noCaseTables (ascii "home") (by decide)).2 (by decide)

/-- C7, counterexample: for `a@b` the snake-case form without its underscore
is `ab`, the lowercased Pascal-case form is `a@b`. -/
theorem snake_pascal_differ :
    (toSnakeCase noCaseTables (ascii "a@b")).filter (fun b => b ≠ 95) = ascii "ab" ∧
    stringsToLower noCaseTables (toPascalCase noCaseTables (ascii "a@b")) = ascii "a@b" ∧
    (toSnakeCase noCaseTables (ascii "a@b")).filter (fun b => b ≠ 95) ≠
      stringsToLower noCaseTables (toPascalCase noCaseTables (ascii "a@b")) := by
  decide

/-- C7 as amended: for an ASCII string, the snake-case form without its
underscores is the lowercased Pascal-case form exactly when every character of
the string is a letter, a digit, an underscore, a hyphen or whitespace; the
lowercased camel-case form is always the lowercased Pascal-case form. -/
theorem snake_pascal_camel_letters (t : CaseTables) (s : GoString) (h : ∀ b ∈ s, b < 128) :
    ((toSnakeCase t s).filter (fun b => b ≠ 95) = stringsToLower t (toPascalCase t s) ↔
      ∀ b ∈ s, isAlnum b = true ∨ isDelim b = true) ∧
    stringsToLower t (toCamelCase t s) = stringsToLower t (toPascalCase t s) := by
  obtain ⟨hp, hc⟩ := lower_toPascalCase t s h
  refine ⟨?_, hc⟩
  rw [toSnakeCase_filter, hp]
  constructor
  · intro e b hb
    by_cases hd : isDelim b = true
    · exact Or.inr hd
    · left
      have hmem : asciiLower b ∈ (s.filter (fun b => !isDelim b)).map asciiLower :=
        List.mem_map.2 ⟨b, List.mem_filter.2 ⟨hb, by simpa using hd⟩, rfl⟩
      rw [← e] at hmem
      obtain ⟨c, hc1, hc2⟩ := List.mem_map.1 hmem
      have hcal : isAlnum c = true := (List.mem_filter.1 hc1).2
      have hl : isLowerDigit (asciiLower b) = true := by
        rw [← hc2]; exact isLowerDigit_asciiLower hcal
      by_cases hu : isUpper b = true
      · exact isAlnum_of_isUpper hu
      · have : asciiLower b = b := by unfold asciiLower; rw [if_neg hu]
        rw [this] at hl
        exact isAlnum_of_isLowerDigit hl
  · intro hs
    congr 1
    apply List.filter_congr
    intro b hb
    rcases hs b hb with h1 | h1
    · rw [h1, isDelim_false_of_isAlnum h1]; rfl
    · rw [h1]
      cases ha : isAlnum b
      · rfl
      · rw [isDelim_false_of_isAlnum ha] at h1
        exact absurd h1 (by decide)

/-- C7 as amended, at `fooBar_baz qux`. -/
theorem snake_pascal_camel_letters_witness :
    (toSnakeCase noCaseTables (ascii "fooBar_baz qux")).filter (fun b => b ≠ 95) =
      stringsToLower noCaseTables (toPascalCase noCaseTables (ascii "fooBar_baz qux")) :=
  (snake_pascal_camel_letters noCaseTables (ascii "fooBar_baz qux") (by decide)).1.2 (by decide)

/-- C8, counterexample: in an installation with all templates, with none of
the four target files, and with a regular file at `pages/bloc`, the call for
type `p` and path `pages/home` writes no file and ends in `os.Exit(1)`. -/
theorem generateBoilerplate_page_blocked :
    (∀ ty ∈ [sampleTypes.BloCPage, sampleTypes.BLoC, sampleTypes.Event, sampleTypes.State],
      osStat blockedWorld (templatePathOf ty) = StatResult.file) ∧
    (∀ f ∈ [pageFile plainEnv (ascii "pages/home"), blocFile plainEnv (ascii "pages/home"),
        eventFile plainEnv (ascii "pages/home"), stateFile plainEnv (ascii "pages/home")],
      osStat blockedWorld f = StatResult.notExist) ∧
    (generateBoilerplate plainEnv sampleTypes [ascii "p", ascii "pages/home"]
      blockedWorld).world.written = [] ∧
    (generateBoilerplate plainEnv sampleTypes [ascii "p", ascii "pages/home"]
      blockedWorld).exitCode = some 1 := by
  decide

/-- C8 as amended: when `generateBoilerplate` is called with type `p` or
`page` and no `--skip-bloc`, the four templates can be read, parsed and
executed, the directory of the path and its bloc directory are there or can
be made, `os.Stat` of the bloc directory does not fail for another reason than
its absence, and the four target files do not exist and can be written, it
returns after writing exactly the page, bloc, event and state file, in this
order. -/
theorem generateBoilerplate_page (env : Env) (ft : FileTypes) (w : World)
    (templateType path : GoString) (more : List GoString) (o1 o2 o3 o4 : GoString)
    (hPage : ft.Page = ascii "page") (hft : ft.Distinct)
    (hty : templateType = ascii "p" ∨ templateType = ascii "page")
    (hflag : more.head? ≠ some (ascii "--skip-bloc"))
    (ht1 : TemplateReady env w ft.BloCPage (filepathBase path) o1)
    (ht2 : TemplateReady env w ft.BLoC (filepathBase path) o2)
    (ht3 : TemplateReady env w ft.Event (filepathBase path) o3)
    (ht4 : TemplateReady env w ft.State (filepathBase path) o4)
    (hdir : filepathDir path = [46] ∨ CanCreateDir w (filepathDir path))
    (hbloc : osStat w (blocDirOf path) = StatResult.dir ∨ CanCreateDir w (blocDirOf path))
    (hstat : osStat w (blocDirOf path) ≠ StatResult.failed)
    (hw1 : CanWriteNew w (pageFile env path)) (hw2 : CanWriteNew w (blocFile env path))
    (hw3 : CanWriteNew w (eventFile env path)) (hw4 : CanWriteNew w (stateFile env path)) :
    ∃ w4, generateBoilerplate env ft (templateType :: path :: more) w = Outcome.returned w4 ∧
      w4.written = w.written ++ [(pageFile env path, o1), (blocFile env path, o2),
        (eventFile env path, o3), (stateFile env path, o4)] := by
  have hfull : (typeMap.lookup templateType).getD templateType = ft.Page := by
    rw [hPage]
    rcases hty with e | e <;> (rw [e]; decide)
  unfold generateBoilerplate
  simp only [hfull, decide_True, Bool.and_true]
  have hskip : (!skipBlocOf more) = true := by
    cases more with
    | nil => rfl
    | cons flag rest =>
      have : flag ≠ ascii "--skip-bloc" := fun e => hflag (by simp [e])
      simp [skipBlocOf, this]
  rw [if_pos hskip]
  exact generateFile_four env ft w path o1 o2 o3 o4 hft ht1 ht2 ht3 ht4 hdir hbloc hstat
    hw1 hw2 hw3 hw4

/-- C8 as amended, in the sample installation: type `p` and path `pages/home`
give `pages/home_page.dart`, `pages/bloc/home_bloc.dart`,
`pages/bloc/home_event.dart` and `pages/bloc/home_state.dart`. -/
theorem generateBoilerplate_page_witness :
    ∃ w4, generateBoilerplate plainEnv sampleTypes [ascii "p", ascii "pages/home"] sampleWorld
        = Outcome.returned w4 ∧
      w4.written.map Prod.fst = [ascii "pages/home_page.dart", ascii "pages/bloc/home_bloc.dart",
        ascii "pages/bloc/home_event.dart", ascii "pages/bloc/home_state.dart"] := by
  obtain ⟨w4, h1, h2⟩ := generateBoilerplate_page plainEnv sampleTypes sampleWorld (ascii "p")
    (ascii "pages/home") [] (ascii "page with bloc") (ascii "bloc") (ascii "event")
    (ascii "state") (by decide) (by decide) (by decide) (by decide)
    ⟨ascii "page with bloc", by decide, by decide, by decide, by decide⟩
    ⟨ascii "bloc", by decide, by decide, by decide, by decide⟩
    ⟨ascii "event", by decide, by decide, by decide, by decide⟩
    ⟨ascii "state", by decide, by decide, by decide, by decide⟩
    (Or.inr (by decide)) (Or.inr (by decide)) (by decide)
    (by decide) (by decide) (by decide) (by decide)
  refine ⟨w4, h1, ?_⟩
  rw [h2]
  decide

/-- C9, counterexample: in an installation with the page template, without
the target file, and with a regular file at `pages`, the call for type `p`,
path `pages/home` and `--skip-bloc` writes no file and ends in
`os.Exit(1)`. -/
theorem generateBoilerplate_skipBloc_blocked :
    osStat fileAtPagesWorld (templatePathOf sampleTypes.Page) = StatResult.file ∧
    osStat fileAtPagesWorld (pageFile plainEnv (ascii "pages/home")) = StatResult.notExist ∧
    (generateBoilerplate plainEnv sampleTypes
      [ascii "p", ascii "pages/home", ascii "--skip-bloc"] fileAtPagesWorld).world.written = [] ∧
    (generateBoilerplate plainEnv sampleTypes
      [ascii "p", ascii "pages/home", ascii "--skip-bloc"] fileAtPagesWorld).exitCode = some 1 := by
  decide

/-- C9 as amended: when `generateBoilerplate` is called with type `p` or
`page` and `--skip-bloc` as third argument, the page template can be read,
parsed and executed, the directory of the path is there or can be made, and
the page file does not exist and can be written, it returns after writing
exactly one file, the page file; no bloc, event or state file is written. -/
theorem generateBoilerplate_skipBloc (env : Env) (ft : FileTypes) (w : World)
    (templateType path : GoString) (rest : List GoString) (out : GoString)
    (hPage : ft.Page = ascii "page")
    (hty : templateType = ascii "p" ∨ templateType = ascii "page")
    (ht : TemplateReady env w ft.Page (filepathBase path) out)
    (hdir : filepathDir path = [46] ∨ CanCreateDir w (filepathDir path))
    (hw : CanWriteNew w (pageFile env path)) :
    ∃ w1, generateBoilerplate env ft (templateType :: path :: ascii "--skip-bloc" :: rest) w
        = Outcome.returned w1 ∧
      w1.written = w.written ++ [(pageFile env path, out)] := by
  have hfull : (typeMap.lookup templateType).getD templateType = ft.Page := by
    rw [hPage]
    rcases hty with e | e <;> (rw [e]; decide)
  have hskip : skipBlocOf (ascii "--skip-bloc" :: rest) = true := by
    simp [skipBlocOf]
  obtain ⟨⟨p1, p2⟩, _⟩ := outputs_distinct env path
  have q := outputPathOf_page env ft path
  obtain ⟨w1, r1, g1⟩ := generateFile_returns env ft ft.Page path out w ht hdir (Or.inl rfl)
    (Or.inl rfl) (by rw [q]; exact hw.1) (by rw [q]; exact hw.2) (by rw [q]; exact p1) (by rw [q]; exact p2)
  rw [q] at g1
  refine ⟨w1, ?_, g1.written⟩
  unfold generateBoilerplate
  simp only [hfull, hskip, Bool.not_true, Bool.false_and, Bool.false_eq_true, if_false]
  exact r1

/-- C9 as amended, in the sample installation: type `p`, path `pages/home` and
`--skip-bloc` give `pages/home_page.dart` alone. -/
theorem generateBoilerplate_skipBloc_witness :
    ∃ w1, generateBoilerplate plainEnv sampleTypes
        [ascii "p", ascii "pages/home", ascii "--skip-bloc"] sampleWorld = Outcome.returned w1 ∧
      w1.written.map Prod.fst = [ascii "pages/home_page.dart"] := by
  obtain ⟨w1, h1, h2⟩ := generateBoilerplate_skipBloc plainEnv sampleTypes sampleWorld (ascii "p")
    (ascii "pages/home") [] (ascii "page") (by decide) (by decide)
    ⟨ascii "page", by decide, by decide, by decide, by decide⟩
    (Or.inr (by decide)) (by decide)
  refine ⟨w1, h1, ?_⟩
  rw [h2]
  decide

/-- C10, counterexample: with the file `widgets/custom_btn.dart` in place and
no template for type `w`, `generateFile` for `w` and `widgets/custom_btn`
computes that output file, and ends with the lines of the missing template;
the line of the existing file is not printed. -/
theorem generateFile_exists_no_template :
    outputPathOf plainEnv sampleTypes (ascii "w") (ascii "widgets/custom_btn") =
      ascii "widgets/custom_btn.dart" ∧
    osStat widgetWorld (ascii "widgets/custom_btn.dart") = StatResult.file ∧
    (generateFile plainEnv sampleTypes (ascii "w") (ascii "widgets/custom_btn")
      widgetWorld).world.stdout =
      [Message.templateNotFound (ascii "templates/w.tmpl"), Message.ensureInstallation] ∧
    (generateFile plainEnv sampleTypes (ascii "w") (ascii "widgets/custom_btn")
      widgetWorld).exitCode = some 1 := by
  decide

/-- With the page file in place, a template that exists, and a regular file
where the bloc directory should be, `generateFile` for the page-with-bloc type
ends with the line of the bloc directory, not that of the existing file. -/
theorem generateFile_exists_bloc_blocked :
    osStat blockedHomePageWorld (templatePathOf sampleTypes.BloCPage) = StatResult.file ∧
    osStat blockedHomePageWorld
      (outputPathOf plainEnv sampleTypes sampleTypes.BloCPage (ascii "pages/home")) =
      StatResult.file ∧
    (generateFile plainEnv sampleTypes sampleTypes.BloCPage (ascii "pages/home")
      blockedHomePageWorld).world.stdout =
      [Message.creatingBlocDirectory, Message.errorCreatingBlocDirectory] ∧
    (generateFile plainEnv sampleTypes sampleTypes.BloCPage (ascii "pages/home")
      blockedHomePageWorld).exitCode = some 1 := by
  decide

/-- With the page file in place and `os.Stat` failing at the bloc directory
for another reason than its absence, `generateFile` for the page-with-bloc
type panics at `info.IsDir()`: the process ends with status 2 and nothing is
printed. -/
theorem generateFile_exists_panic :
    osStat statFailsWorld
      (outputPathOf plainEnv sampleTypes sampleTypes.BloCPage (ascii "pages/home")) =
      StatResult.file ∧
    osStat statFailsWorld (blocDirOf (ascii "pages/home")) = StatResult.failed ∧
    (generateFile plainEnv sampleTypes sampleTypes.BloCPage (ascii "pages/home")
      statFailsWorld).world.stdout = [] ∧
    (generateFile plainEnv sampleTypes sampleTypes.BloCPage (ascii "pages/home")
      statFailsWorld).exitCode = some 2 := by
  decide

/-- C10 as amended: when `os.Stat` finds the output file that `generateFile`
computes, the call does not get to the write step: no file is written and the
regular files are as before.  Unless the type is not `Page` and `os.Stat` of
the bloc directory fails for another reason than its absence, the call ends
in `os.Exit(1)`, and the last line it prints is that of the existing file
exactly when the template is read and the directories are there or can be
made. -/
theorem generateFile_exists (env : Env) (ft : FileTypes) (fullType path : GoString)
    (w : World)
    (h : osStat w (outputPathOf env ft fullType path) = StatResult.file ∨
      osStat w (outputPathOf env ft fullType path) = StatResult.dir) :
    (generateFile env ft fullType path w).world.files = w.files ∧
    (generateFile env ft fullType path w).world.written = w.written ∧
    ((fullType = ft.Page ∨ osStat w (blocDirOf path) ≠ StatResult.failed) →
      (generateFile env ft fullType path w).exitCode = some 1 ∧
      ∃ lines, (generateFile env ft fullType path w).world.stdout = w.stdout ++ lines ∧
        (lines.getLast? = some (Message.fileAlreadyExists (outputPathOf env ft fullType path)) ↔
          ReachesOutputCheck ft w fullType path)) :=
  generateFile_of_exists env ft fullType path w h

/-- C10 as amended, in the sample installation with `pages/home_page.dart` in
place: the call for `page` and `pages/home` ends in `os.Exit(1)` after the
line of the existing file, and the file keeps its content. -/
theorem generateFile_exists_witness :
    (generateFile plainEnv sampleTypes (ascii "page") (ascii "pages/home")
      homePageWorld).exitCode = some 1 ∧
    (generateFile plainEnv sampleTypes (ascii "page") (ascii "pages/home")
      homePageWorld).world.files (ascii "pages/home_page.dart") = some (ascii "old") ∧
    ∃ lines, (generateFile plainEnv sampleTypes (ascii "page") (ascii "pages/home")
        homePageWorld).world.stdout = lines ∧
      lines.getLast? = some (Message.fileAlreadyExists (ascii "pages/home_page.dart")) := by
  have h := generateFile_exists plainEnv sampleTypes (ascii "page") (ascii "pages/home")
    homePageWorld (Or.inl (by decide))
  obtain ⟨h1, lines, h2, h3⟩ := h.2.2 (Or.inl (by decide))
  refine ⟨h1, ?_, lines, ?_, ?_⟩
  · rw [h.1]; decide
  · rw [h2]; rfl
  · rw [h3.2 ⟨⟨ascii "page", by decide⟩, Or.inr (by decide), Or.inl (by decide)⟩]
    decide

/-- A first character outside ASCII: `toPascalCase` uppercases the first byte
of `é` alone, each of the two bytes becomes U+FFFD, and the camel-case form
does not go on like the Pascal-case form. -/
theorem toCamelCase_nonAscii (t : CaseTables) :
    toPascalCase t [195, 169] = [239, 191, 189, 239, 191, 189] ∧
    (toCamelCase t [195, 169]).drop 1 ≠ (toPascalCase t [195, 169]).drop 1 := by
  simp [toCamelCase, toPascalCase, splitDelims, splitDelimsAux, isDelim, capitalize, stringsJoin,
    stringsToUpper, stringsToLower, stringsMap, stringsMapAux, decodeRune, inRange, runeError,
    unicodeToUpper, unicodeToLower, t.upper_runeError, t.lower_runeError, encodeRune]

end BashFlutter
